import Mathlib

/-!
# Verification development for `volt profile` (cmd/profile.go)

Shallow embedding of the `profile` subcommands of volt and of `Main`
(main.go).  The collaborators
(`lockjson`, `transaction`, `pathutil`, `fmt`) are modelled by a world state
that is threaded explicitly through every handler:

* `disk`    the state document held by lock.json,
* `locked`  the exclusivity marker of the transaction guard,
* `trace`   the chronological log of collaborator calls,
* `stdout`  the lines printed so far.
-/

namespace Volt

/-! ## Data model -/

/-- Entry of `profiles` in lock.json (`lockjson.Profile`). -/
structure lockjson.Profile where
  name : String
  reposPath : List String
  loadInit : Bool
deriving DecidableEq, Repr

/-- The state document (`lockjson.LockJSON`).  The part of the document that
`cmd/profile.go` never touches (the repository records) is kept abstract in
the field `repos`. -/
structure lockjson.LockJSON (R : Type) where
  repos : R
  activeProfile : String
  profiles : List lockjson.Profile
deriving DecidableEq, Repr

/-- Go `error` values, told apart by the place that created them: the
`errors.New` calls of `cmd/profile.go` itself, or one of the collaborators
whose error is handed on unchanged (`return err`). -/
inductive Error where
  | errorsNew (msg : String)
  | lockjson (msg : String)
  | transaction (msg : String)
  | pathutil (msg : String)
deriving DecidableEq, Repr

/-- Go `err.Error()`. -/
def Error.message : Error → String
  | .errorsNew msg => msg
  | .lockjson msg => msg
  | .transaction msg => msg
  | .pathutil msg => msg

/-- Calls into the state store and the transaction guard, in the order made. -/
inductive Event (R : Type) where
  | read
  | create (ok : Bool)
  | remove
  | write (doc : lockjson.LockJSON R) (ok : Bool)
deriving DecidableEq, Repr

/-- Behaviour of the collaborators that is not determined by `cmd/profile.go`:
whether `lockjson.Read` / `lockjson.Write` fail (and with which message), the
message of the error of `transaction.Create`, and
`pathutil.NormalizeRepository`. -/
structure Env (R : Type) where
  readErr : Option String
  writeErr : lockjson.LockJSON R → Option String
  lockedMsg : String
  normalize : String → Except String String

structure World (R : Type) where
  disk : lockjson.LockJSON R
  locked : Bool
  trace : List (Event R)
  stdout : List String
deriving DecidableEq, Repr

variable {R : Type}

/-! ## Collaborators -/

/-- Go `fmt.Println` of one line. -/
def println (line : String) (w : World R) : World R :=
  { w with stdout := w.stdout ++ [line] }

/-- Go `lockjson.Read()`: returns the persisted document or an error. -/
def lockjsonRead (env : Env R) (w : World R) : Except Error (lockjson.LockJSON R) × World R :=
  let w1 := { w with trace := w.trace ++ [Event.read] }
  match env.readErr with
  | some msg => (.error (.lockjson msg), w1)
  | none => (.ok w.disk, w1)

/-- Go `lockjson.Write(lockJSON)`: atomic, the document on disk is replaced
only when the write succeeds. -/
def lockjsonWrite (env : Env R) (lockJSON : lockjson.LockJSON R) (w : World R) :
    Option Error × World R :=
  match env.writeErr lockJSON with
  | some msg => (some (.lockjson msg), { w with trace := w.trace ++ [Event.write lockJSON false] })
  | none =>
    (none, { w with disk := lockJSON, trace := w.trace ++ [Event.write lockJSON true] })

/-- Modelled from the spec: `transaction.Create()` of the missing package
`transaction`: "attempts to set a single global exclusivity marker; fails
with `AlreadyLocked` if the marker already exists". -/
def transactionCreate (env : Env R) (w : World R) : Option Error × World R :=
  if w.locked then
    (some (.transaction env.lockedMsg), { w with trace := w.trace ++ [Event.create false] })
  else
    (none, { w with locked := true, trace := w.trace ++ [Event.create true] })

/-- Modelled from the spec: `transaction.Remove()` of the missing package
`transaction`: "idempotently clears the marker", "always succeeds". -/
def transactionRemove (w : World R) : World R :=
  { w with locked := false, trace := w.trace ++ [Event.remove] }

/-! ## cmd/profile.go -/

/-- The usage text printed by `showUsage` (one `fmt.Println`). -/
def usageText : String :=
  "\nUsage\n  profile [get]\n    Get current profile name\n\n  profile set \x7bname\x7d\n    Set profile name\n\n  profile show \x7bname\x7d\n    Show profile info\n\n  profile new \x7bname\x7d\n    Create new profile\n\n  profile destroy \x7bname\x7d\n    Delete profile\n\n  profile add \x7bname\x7d \x7brepository\x7d [\x7brepository2\x7d ...]\n    Add one or more repositories to profile\n\n  profile rm \x7bname\x7d \x7brepository\x7d [\x7brepository2\x7d ...]\n    Remove one or more repositories to profile\n\nDescription\n  Subcommands about profile feature\n"

/-- Go `(cmd *profileCmd) showUsage`; the flag `showedUsage` it sets is
returned separately where it is read (`parseArgs` / `Profile`). -/
def showUsage (w : World R) : World R :=
  println usageText w

/-- The loop `for i := range profiles { if profiles[i].Name == profileName
{ profile = &profiles[i]; break } }` (in `doSet`, `doNew` and `doDestroy`
only the flag or the index is kept): the index of the first profile with that
name together with that profile, `none` when the loop ends without a match. -/
def findProfile (profileName : String) :
    List lockjson.Profile → Option (Nat × lockjson.Profile)
  | [] => none
  | p :: ps =>
    if p.name = profileName then some (0, p)
    else (findProfile profileName ps).map (fun found => (found.1 + 1, found.2))

/-- Print one line per element (the `for _, reposPath := range ...` print loops). -/
def printEach (f : String → String) : List String → World R → World R
  | [], w => w
  | x :: xs, w => printEach f xs (println (f x) w)

/-- Go `(*profileCmd) doGet`. -/
def doGet (env : Env R) (_args : List String) (w : World R) : Option Error × World R :=
  match lockjsonRead env w with
  | (.error err, w1) => (some (.errorsNew ("failed to read lock.json: " ++ err.message)), w1)
  | (.ok lockJSON, w1) => (none, println lockJSON.activeProfile w1)

/-- Go `(cmd *profileCmd) doSet`. -/
def doSet (env : Env R) (args : List String) (w : World R) : Option Error × World R :=
  match args with
  | [] =>
    (none, println "[ERROR] 'volt profile set' receives profile name." (showUsage w))
  | profileName :: _ =>
    match lockjsonRead env w with
    | (.error err, w1) =>
      (some (.errorsNew ("failed to read lock.json: " ++ err.message)), w1)
    | (.ok lockJSON, w1) =>
      if lockJSON.activeProfile = profileName then
        (none, println ("[INFO] Unchanged active profile '" ++ profileName ++ "'") w1)
      else
        match transactionCreate env w1 with
        | (some err, w2) => (some err, w2)
        | (none, w2) =>
          -- defer transaction.Remove()
          let (res, w3) :=
            match findProfile profileName lockJSON.profiles with
            | none =>
              (some (Error.errorsNew ("profile '" ++ profileName ++ "' does not exist")), w2)
            | some _ =>
              let lockJSON1 := { lockJSON with activeProfile := profileName }
              match lockjsonWrite env lockJSON1 w2 with
              | (some err, w3) => (some err, w3)
              | (none, w3) =>
                (none, println ("[INFO] Set active profile to '" ++ profileName ++ "'") w3)
          (res, transactionRemove w3)

/-- Go `(cmd *profileCmd) doShow`. -/
def doShow (env : Env R) (args : List String) (w : World R) : Option Error × World R :=
  match args with
  | [] =>
    (none, println "[ERROR] 'volt profile show' receives profile name." (showUsage w))
  | profileName :: _ =>
    match lockjsonRead env w with
    | (.error err, w1) =>
      (some (.errorsNew ("failed to read lock.json: " ++ err.message)), w1)
    | (.ok lockJSON, w1) =>
      match findProfile profileName lockJSON.profiles with
      | none => (some (.errorsNew ("profile '" ++ profileName ++ "' does not exist")), w1)
      | some (_, profile) =>
        let w2 := println ("name: " ++ profile.name) w1
        let w3 := println ("load_init: " ++ toString profile.loadInit) w2
        let w4 := println "repos_path:" w3
        (none, printEach (fun reposPath => "  " ++ reposPath) profile.reposPath w4)

/-- Go `(cmd *profileCmd) doNew`. -/
def doNew (env : Env R) (args : List String) (w : World R) : Option Error × World R :=
  match args with
  | [] =>
    (none, println "[ERROR] 'volt profile new' receives profile name." (showUsage w))
  | profileName :: _ =>
    match lockjsonRead env w with
    | (.error err, w1) =>
      (some (.errorsNew ("failed to read lock.json: " ++ err.message)), w1)
    | (.ok lockJSON, w1) =>
      match findProfile profileName lockJSON.profiles with
      | some _ => (some (.errorsNew ("profile '" ++ profileName ++ "' already exists")), w1)
      | none =>
        match transactionCreate env w1 with
        | (some err, w2) => (some err, w2)
        | (none, w2) =>
          -- defer transaction.Remove()
          let lockJSON1 := { lockJSON with
            profiles := lockJSON.profiles ++
              [{ name := profileName, reposPath := [], loadInit := true }] }
          let (res, w3) :=
            match lockjsonWrite env lockJSON1 w2 with
            | (some err, w3) => (some err, w3)
            | (none, w3) =>
              (none, println ("[INFO] Created new profile '" ++ profileName ++ "'") w3)
          (res, transactionRemove w3)

/-- Go `(cmd *profileCmd) doDestroy`. -/
def doDestroy (env : Env R) (args : List String) (w : World R) : Option Error × World R :=
  match args with
  | [] =>
    (none, println "[ERROR] 'volt profile destroy' receives profile name." (showUsage w))
  | profileName :: _ =>
    match lockjsonRead env w with
    | (.error err, w1) =>
      (some (.errorsNew ("failed to read lock.json: " ++ err.message)), w1)
    | (.ok lockJSON, w1) =>
      match findProfile profileName lockJSON.profiles with
      | none => (some (.errorsNew ("profile '" ++ profileName ++ "' does not exist")), w1)
      | some (found, _) =>
        match transactionCreate env w1 with
        | (some err, w2) => (some err, w2)
        | (none, w2) =>
          -- defer transaction.Remove()
          let lockJSON1 := { lockJSON with
            profiles := lockJSON.profiles.take found ++ lockJSON.profiles.drop (found + 1) }
          let (res, w3) :=
            match lockjsonWrite env lockJSON1 w2 with
            | (some err, w3) => (some err, w3)
            | (none, w3) =>
              (none, println ("[INFO] Deleted profile '" ++ profileName ++ "'") w3)
          (res, transactionRemove w3)

/-- The loop of `parseAddArgs` over `args[1:]`: normalise every raw
repository, stop at the first failure. -/
def normalizeAll (env : Env R) : List String → List String → Except Error (List String)
  | [], reposPathList => .ok reposPathList
  | arg :: rest, reposPathList =>
    match env.normalize arg with
    | .error msg => .error (.pathutil msg)
    | .ok reposPath => normalizeAll env rest (reposPathList ++ [reposPath])

/-- Go `(cmd *profileCmd) parseAddArgs`: returns
`(profileName, reposPathList, err)`. -/
def parseAddArgs (env : Env R) (subCmd : String) (args : List String) (w : World R) :
    String × List String × Option Error × World R :=
  match args with
  | [] =>
    ("", [], none,
      println ("[ERROR] 'volt profile " ++ subCmd ++
        "' receives profile name and one or more repositories.") (showUsage w))
  | profileName :: rest =>
    match normalizeAll env rest [] with
    | .error err => ("", [], some err, w)
    | .ok reposPathList => (profileName, reposPathList, none, w)

/-- Go `(*profileCmd) transactProfile`.  The closure `modifyProfile` mutates
the profile it is given and a variable it captured (`added` / `removed`);
here it returns both.  `captured` is the value of that variable before the
call. -/
def transactProfile {σ : Type} (env : Env R) (profileName : String)
    (modifyProfile : lockjson.Profile → σ → World R → lockjson.Profile × σ × World R)
    (captured : σ) (w : World R) : Option Error × σ × World R :=
  match lockjsonRead env w with
  | (.error err, w1) =>
    (some (.errorsNew ("failed to read lock.json: " ++ err.message)), captured, w1)
  | (.ok lockJSON, w1) =>
    match findProfile profileName lockJSON.profiles with
    | none =>
      (some (.errorsNew ("profile '" ++ profileName ++ "' does not exist")), captured, w1)
    | some (i, profile) =>
      match transactionCreate env w1 with
      | (some err, w2) => (some err, captured, w2)
      | (none, w2) =>
        -- defer transaction.Remove()
        let (profile1, captured1, w3) := modifyProfile profile captured w2
        let lockJSON1 := { lockJSON with profiles := lockJSON.profiles.set i profile1 }
        let (res, w4) := lockjsonWrite env lockJSON1 w3
        (res, captured1, transactionRemove w4)

/-- The inner loop of `doAdd`: is `reposPath` among `profile.ReposPath`? -/
def foundRepos (reposPath : String) : List String → Bool
  | [] => false
  | r :: rs => if r = reposPath then true else foundRepos reposPath rs

/-- The closure passed to `transactProfile` by `doAdd`. -/
def doAddModify : List String → lockjson.Profile → List String → World R →
    lockjson.Profile × List String × World R
  | [], profile, added, w => (profile, added, w)
  | reposPath :: rest, profile, added, w =>
    if foundRepos reposPath profile.reposPath then
      doAddModify rest profile added
        (println ("[WARN] repository '" ++ reposPath ++ "' already exists") w)
    else
      doAddModify rest { profile with reposPath := profile.reposPath ++ [reposPath] }
        (added ++ [reposPath]) w

/-- Go `(cmd *profileCmd) doAdd`.  The `err` returned by `parseAddArgs` is
overwritten by the result of `transactProfile` before it is read. -/
def doAdd (env : Env R) (args : List String) (w : World R) : Option Error × World R :=
  match parseAddArgs env "add" args w with
  | (profileName, reposPathList, _, w1) =>
    match transactProfile env profileName (doAddModify reposPathList) [] w1 with
    | (some err, _, w2) => (some err, w2)
    | (none, added, w2) =>
      (none, printEach (fun reposPath => "[INFO] Added repository '" ++ reposPath ++ "'") added w2)

/-- The inner loop of `doRm`: index of the first entry equal to `reposPath`. -/
def findRepos (reposPath : String) : List String → Option Nat
  | [] => none
  | r :: rs => if r = reposPath then some 0 else (findRepos reposPath rs).map (· + 1)

/-- The closure passed to `transactProfile` by `doRm`. -/
def doRmModify : List String → lockjson.Profile → List String → World R →
    lockjson.Profile × List String × World R
  | [], profile, removed, w => (profile, removed, w)
  | reposPath :: rest, profile, removed, w =>
    match findRepos reposPath profile.reposPath with
    | some found =>
      doRmModify rest
        { profile with
          reposPath := profile.reposPath.take found ++ profile.reposPath.drop (found + 1) }
        (removed ++ [reposPath]) w
    | none =>
      doRmModify rest profile removed
        (println ("[WARN] repository '" ++ reposPath ++ "' does not exist") w)

/-- Go `(cmd *profileCmd) doRm`.  As in `doAdd`, the `err` of `parseAddArgs`
is overwritten before it is read. -/
def doRm (env : Env R) (args : List String) (w : World R) : Option Error × World R :=
  match parseAddArgs env "rm" args w with
  | (profileName, reposPathList, _, w1) =>
    match transactProfile env profileName (doRmModify reposPathList) [] w1 with
    | (some err, _, w2) => (some err, w2)
    | (none, removed, w2) =>
      (none,
        printEach (fun reposPath => "[INFO] Removed repository '" ++ reposPath ++ "'") removed w2)

/-- The table `profileSubCmd` filled by `init`. -/
def profileSubCmd (env : Env R) (subCmd : String) :
    Option (List String → World R → Option Error × World R) :=
  if subCmd = "get" then some (doGet env)
  else if subCmd = "set" then some (doSet env)
  else if subCmd = "show" then some (doShow env)
  else if subCmd = "new" then some (doNew env)
  else if subCmd = "destroy" then some (doDestroy env)
  else if subCmd = "add" then some (doAdd env)
  else if subCmd = "rm" then some (doRm env)
  else none

/-- Go `fs.Parse(args)` of the standard `flag` package for a `FlagSet`
without any defined flag and with `ContinueOnError`, followed by `fs.Args()`:
the positional arguments left over, and whether `fs.Usage` was called.
A first argument shorter than two bytes or not starting with `-` ends flag
parsing; `--` is dropped and ends flag parsing; a name that is empty or starts
with `-` or `=` is bad syntax (reported, usage shown, argument kept); every
other flag is consumed and, none being defined, shows the usage (`-h`,
`-help`) or reports that it is not defined and shows the usage. -/
def flagParse (args : List String) (w : World R) : List String × Bool × World R :=
  match args with
  | [] => ([], false, w)
  | s :: rest =>
    match s.toList with
    | '-' :: '-' :: [] => (rest, false, w)
    | '-' :: c :: cs =>
      let name := if c = '-' then cs else c :: cs
      match name with
      | [] => (s :: rest, true, showUsage (println ("bad flag syntax: " ++ s) w))
      | d :: _ =>
        if d = '-' ∨ d = '=' then
          (s :: rest, true, showUsage (println ("bad flag syntax: " ++ s) w))
        else
          let flagName := String.mk (name.takeWhile (· ≠ '='))
          if flagName = "help" ∨ flagName = "h" then (rest, true, showUsage w)
          else
            (rest, true,
              showUsage (println ("flag provided but not defined: -" ++ flagName) w))
    | _ => (s :: rest, false, w)

/-- Go `(cmd *profileCmd) parseArgs`: the arguments for the dispatcher (or
an error) and the flag `cmd.showedUsage`. -/
def parseArgs (env : Env R) (args : List String) (w : World R) :
    Except Error (List String) × Bool × World R :=
  match flagParse args w with
  | (fsArgs, showedUsage, w1) =>
    match fsArgs with
    | [] => (.ok ("get" :: fsArgs), showedUsage, w1)
    | subCmd :: _ =>
      match profileSubCmd env subCmd with
      | none => (.error (.errorsNew ("unknown subcommand: " ++ subCmd)), showedUsage, w1)
      | some _ => (.ok fsArgs, showedUsage, w1)

/-- Go `Profile`: the exit code; `none` stands for a run-time panic (the
index expression `args[0]` out of range). -/
def Profile (env : Env R) (args : List String) (w : World R) : Option (Nat × World R) :=
  match parseArgs env args w with
  | (.error err, _, w1) => some (10, println err.message w1)
  | (.ok args1, showedUsage, w1) =>
    if showedUsage then some (0, w1)
    else
      match args1 with
      | [] => none
      | subCmd :: rest =>
        match profileSubCmd env subCmd with
        | some fn =>
          match fn rest w1 with
          | (some err, w2) => some (11, println ("[ERROR] " ++ err.message) w2)
          | (none, w2) => some (0, w2)
        | none => some (0, w1)

/-! ## main.go -/

/-- The commands of package `cmd` other than `Profile` that `Main` dispatches
to.  Their code is outside this development; each takes the arguments and
returns an exit code. -/
structure OtherCmds (R : Type) where
  Get : List String → World R → Nat × World R
  Rm : List String → World R → Nat × World R
  Query : List String → World R → Nat × World R
  Enable : List String → World R → Nat × World R
  Disable : List String → World R → Nat × World R
  Version : List String → World R → Nat × World R

/-- The usage text printed by `showUsage` of main.go (one `fmt.Println`). -/
def mainUsageText : String :=
  "\nUsage\n  volt COMMAND ARGS\n\nCommand\n  get [-l] [-u] [-v] \x7brepository\x7d\n    Install / Upgrade vim plugin, and system plugconf files from\n    https://github.com/vim-volt/plugconf-templates\n\n  rm \x7brepository\x7d\n    Uninstall vim plugin and system plugconf files\n\n  query [-j] [-l] [\x7brepository\x7d]\n    Output queried vim plugin info\n\n  profile [get]\n    Get current profile name\n\n  profile set \x7bname\x7d\n    Set profile name\n\n  profile show \x7bname\x7d\n    Show profile info\n\n  profile new \x7bname\x7d\n    Create new profile\n\n  profile destroy \x7bname\x7d\n    Delete profile\n\n  profile add \x7bname\x7d \x7brepository\x7d [\x7brepository2\x7d ...]\n    Add one or more repositories to profile\n\n  profile rm \x7bname\x7d \x7brepository\x7d [\x7brepository2\x7d ...]\n    Remove one or more repositories to profile\n\n  version\n    Show volt command version\n"

/-- Go `showUsage` of main.go. -/
def mainShowUsage (w : World R) : World R :=
  println mainUsageText w

/-- The Go index expression `os.Args[i]`; `none` stands for the run-time
panic "index out of range". -/
def indexArgs (osArgs : List String) (i : Nat) : Option String :=
  osArgs.get? i

/-- The Go slice expression `os.Args[i:]`; `none` stands for the run-time
panic "slice bounds out of range". -/
def sliceArgs (osArgs : List String) (i : Nat) : Option (List String) :=
  if i ≤ osArgs.length then some (osArgs.drop i) else none

/-- Go `Main`: the exit code, the world and the lines written to standard
error; `none` stands for a run-time panic.  The condition of the first `if`
is evaluated from left to right with short circuit, as Go does. -/
def Main (env : Env R) (cmds : OtherCmds R) (osArgs : List String) (w : World R) :
    Option (Nat × World R × List String) :=
  let cond : Option Bool :=
    if osArgs.length ≤ 1 then some true
    else if osArgs.length = 1 then
      (indexArgs osArgs 1).map (fun arg => decide (arg = "help"))
    else some false
  match cond with
  | none => none
  | some true => some (1, mainShowUsage w, [])
  | some false =>
    match indexArgs osArgs 1 with
    | none => none
    | some subCmd =>
      if subCmd = "get" then
        (sliceArgs osArgs 2).map (fun args => ((cmds.Get args w).1, (cmds.Get args w).2, []))
      else if subCmd = "rm" then
        (sliceArgs osArgs 2).map (fun args => ((cmds.Rm args w).1, (cmds.Rm args w).2, []))
      else if subCmd = "query" then
        (sliceArgs osArgs 2).map (fun args => ((cmds.Query args w).1, (cmds.Query args w).2, []))
      else if subCmd = "profile" then
        (sliceArgs osArgs 2).bind (fun args =>
          (Profile env args w).map (fun r => (r.1, r.2, [])))
      else if subCmd = "enable" then
        (sliceArgs osArgs 2).map
          (fun args => ((cmds.Enable args w).1, (cmds.Enable args w).2, []))
      else if subCmd = "disable" then
        (sliceArgs osArgs 2).map
          (fun args => ((cmds.Disable args w).1, (cmds.Disable args w).2, []))
      else if subCmd = "version" then
        (sliceArgs osArgs 2).map
          (fun args => ((cmds.Version args w).1, (cmds.Version args w).2, []))
      else if subCmd = "help" then
        (indexArgs osArgs 2).map (fun arg =>
          (2, println ("[ERROR] Run 'volt " ++ arg ++ " -help' to see its help") w, []))
      else
        some (3, w, ["[ERROR] Unknown command '" ++ subCmd ++ "'"])

/-! ## Specification vocabulary -/

/-- The collaborator calls made between world `w` and the later world `w1`. -/
def calls (w w1 : World R) : List (Event R) :=
  w1.trace.drop w.trace.length

/-- Is the event a call of `lockjson.Write`? -/
def Event.isWrite : Event R → Bool
  | .write _ _ => true
  | _ => false

/-- Is the event a call of `transaction.Create`? -/
def Event.isCreate : Event R → Bool
  | .create _ => true
  | _ => false

/-- The NotFound error of the handlers. -/
def notFound (profileName : String) : Error :=
  .errorsNew ("profile '" ++ profileName ++ "' does not exist")

/-- The collaborator calls a handler may make when it starts with the guard
free: none, a read alone, a read followed by an acquisition and a release, or
a read, an acquisition, one write and a release.  `t` is the trace before the
handler and `t1` the trace after it. -/
def Guarded (t t1 : List (Event R)) : Prop :=
  t1 = t ∨ t1 = t ++ [.read] ∨ t1 = t ++ [.read, .create true, .remove] ∨
    ∃ d ok, t1 = t ++ [.read, .create true, .write d ok, .remove]

/-- What a handler can do when it starts with the marker set: either it
never reaches the acquisition (no call or a read alone), or its only calls are
a read and a failed `Create`, and it returns the error of `Create`.  In both
cases the marker stays set and the persisted document is untouched. -/
def LockedOutcome (env : Env R) (w : World R) (r : Option Error × World R) : Prop :=
  ((r.2.trace = w.trace ∨ r.2.trace = w.trace ++ [.read]) ∧
      r.2.locked = true ∧ r.2.disk = w.disk) ∨
    (r.2.trace = w.trace ++ [.read, .create false] ∧
      r.1 = some (.transaction env.lockedMsg) ∧ r.2.locked = true ∧ r.2.disk = w.disk)

/-- Every raw repository of `raws` normalizes, to the identifier at the same
position of `ns`. -/
def Normalizes (env : Env R) (raws ns : List String) : Prop :=
  List.Forall₂ (fun raw n => env.normalize raw = .ok n) raws ns

/-- Keep every identifier only at its first occurrence, in the given order. -/
def firstOccurrences : List String → List String
  | [] => []
  | x :: xs => x :: (firstOccurrences xs).filter (fun y => decide (y ≠ x))

/-- The list `L` of the `add` contract: the normalized identifiers of the
batch `ns` that do not occur in `old`, in the given order, each kept only at
its first occurrence in the batch. -/
def addedSpec (old ns : List String) : List String :=
  firstOccurrences (ns.filter (fun n => decide (n ∉ old)))

/-- The document `doc` with the profile `p`, which stands between `pre` and
`post` in `profiles`, given the repository list `reposPath`; nothing else
changes. -/
def withReposPath (doc : lockjson.LockJSON R) (pre : List lockjson.Profile)
    (p : lockjson.Profile) (post : List lockjson.Profile) (reposPath : List String) :
    lockjson.LockJSON R :=
  { doc with profiles := pre ++ { p with reposPath := reposPath } :: post }

/-- The world in which a closure passed to `transactProfile` runs: after a
successful read and a successful acquisition of the guard. -/
def afterAcquire (w : World R) : World R :=
  { w with locked := true, trace := w.trace ++ [.read, .create true] }

/-- The duplicate diagnostic of `add`. -/
def warnExists (reposPath : String) : String :=
  "[WARN] repository '" ++ reposPath ++ "' already exists"

/-- The report of `add` for an added repository. -/
def infoAdded (reposPath : String) : String :=
  "[INFO] Added repository '" ++ reposPath ++ "'"

/-- The `reposPath` of the `rm` contract: the requested identifiers are
processed in order and each one erases its first exact match from the current
list (nothing when it is absent). -/
def rmSpec (old ns : List String) : List String :=
  ns.foldl (fun cur r => cur.erase r) old

/-- The requested identifiers for which a match was erased. -/
def removedSpec : List String → List String → List String
  | _, [] => []
  | cur, r :: rs =>
    if r ∈ cur then r :: removedSpec (cur.erase r) rs else removedSpec cur rs

/-- The requested identifiers that had no match when their turn came. -/
def missingSpec : List String → List String → List String
  | _, [] => []
  | cur, r :: rs =>
    if r ∈ cur then missingSpec (cur.erase r) rs else r :: missingSpec cur rs

/-- The not-found diagnostic of `rm`. -/
def warnMissing (reposPath : String) : String :=
  "[WARN] repository '" ++ reposPath ++ "' does not exist"

/-- The report of `rm` for a removed repository. -/
def infoRemoved (reposPath : String) : String :=
  "[INFO] Removed repository '" ++ reposPath ++ "'"

/-- The invariant of the data model: `activeProfile` is the name of some
entry of `profiles`. -/
def ActiveExists (doc : lockjson.LockJSON R) : Prop :=
  ∃ p ∈ doc.profiles, p.name = doc.activeProfile

/-- No profile of the document lists a repository identifier twice. -/
def ReposNodup (doc : lockjson.LockJSON R) : Prop :=
  ∀ p ∈ doc.profiles, p.reposPath.Nodup

/-- The AlreadyExists error of `doNew`. -/
def alreadyExists (profileName : String) : Error :=
  .errorsNew ("profile '" ++ profileName ++ "' already exists")

/-- Does the `flag` package take the argument for a flag: at least two
bytes, the first of which is `-`? -/
def looksLikeFlag (s : String) : Bool :=
  match s.toList with
  | '-' :: _ :: _ => true
  | _ => false

/-- A positional argument list: flag parsing ends at once, because the list
is empty or its first element is not taken for a flag. -/
def Positional (args : List String) : Prop :=
  ∀ s rest, args = s :: rest → looksLikeFlag s = false

/-- The names of the subcommands. -/
def subCmdNames : List String :=
  ["get", "set", "show", "new", "destroy", "add", "rm"]

/-- What `Profile` makes of the result of the handler it dispatched to: exit
code 11 after reporting the error, exit code 0 when there is none. -/
def dispatchResult (r : Option Error × World R) : Option (Nat × World R) :=
  match r with
  | (some err, w2) => some (11, println ("[ERROR] " ++ err.message) w2)
  | (none, w2) => some (0, w2)

/-! ## Fixtures for the concrete evaluations -/

/-- Collaborators that never fail, except that the normalizer rejects the raw
string `"bad"`. -/
def demoEnv : Env Unit :=
  { readErr := none
    writeErr := fun _ => none
    lockedMsg := "transaction lock exists"
    normalize := fun raw => if raw = "bad" then .error "invalid repository" else .ok raw }

/-- One profile `default` holding the repository `a`, and active. -/
def demoDoc : lockjson.LockJSON Unit :=
  { repos := ()
    activeProfile := "default"
    profiles := [{ name := "default", reposPath := ["a"], loadInit := true }] }

/-- The guard is free, nothing has been called or printed yet. -/
def demoWorld : World Unit :=
  { disk := demoDoc, locked := false, trace := [], stdout := [] }

/-- A document whose `activeProfile` names no profile (what `destroy` of the
active profile leaves behind). -/
def danglingDoc : lockjson.LockJSON Unit :=
  { repos := ()
    activeProfile := "gone"
    profiles := [{ name := "default", reposPath := ["a"], loadInit := true }] }

/-- A document that has a profile with the empty name. -/
def emptyNameDoc : lockjson.LockJSON Unit :=
  { repos := ()
    activeProfile := "default"
    profiles := [{ name := "default", reposPath := ["a"], loadInit := true },
      { name := "", reposPath := [], loadInit := true }] }

/-- The profile `default` of the scenario. -/
def scenarioDefault : lockjson.Profile :=
  { name := "default", reposPath := [], loadInit := true }

/-- The profile `work` of the scenario, holding `reposPath`. -/
def scenarioWork (reposPath : List String) : lockjson.Profile :=
  { name := "work", reposPath := reposPath, loadInit := true }

/-- Other commands that do nothing and return exit code 0. -/
def demoCmds : OtherCmds Unit :=
  { Get := fun _ w => (0, w)
    Rm := fun _ w => (0, w)
    Query := fun _ w => (0, w)
    Enable := fun _ w => (0, w)
    Disable := fun _ w => (0, w)
    Version := fun _ w => (0, w) }

/-! ## Basic facts -/

theorem findProfile_eq_none_iff (name : String) (ps : List lockjson.Profile) :
    findProfile name ps = none ↔ ∀ p ∈ ps, p.name ≠ name := by
  induction ps with
  | nil => simp [findProfile]
  | cons q qs ih =>
    by_cases hq : q.name = name
    · simp [findProfile, hq]
    · simp [findProfile, hq, ih]

theorem findProfile_eq_some (name : String) (ps : List lockjson.Profile) (i : Nat)
    (p : lockjson.Profile) (h : findProfile name ps = some (i, p)) :
    ∃ pre post, ps = pre ++ p :: post ∧ pre.length = i ∧ p.name = name ∧
      ∀ q ∈ pre, q.name ≠ name := by
  induction ps generalizing i with
  | nil => simp [findProfile] at h
  | cons q qs ih =>
    by_cases hq : q.name = name
    · simp only [findProfile, hq, if_true, Option.some.injEq, Prod.mk.injEq] at h
      obtain ⟨rfl, rfl⟩ := h
      exact ⟨[], qs, by simp, rfl, hq, by simp⟩
    · simp only [findProfile, hq, if_false, Option.map_eq_some'] at h
      obtain ⟨⟨j, p1⟩, hj, hjp⟩ := h
      simp only [Prod.mk.injEq] at hjp
      obtain ⟨rfl, rfl⟩ := hjp
      obtain ⟨pre, post, hps, hlen, hname, hpre⟩ := ih j hj
      refine ⟨q :: pre, post, by simp [hps], by simp [hlen], hname, ?_⟩
      intro r hr
      rcases List.mem_cons.mp hr with rfl | hr
      · exact hq
      · exact hpre r hr

theorem findProfile_split (name : String) (pre post : List lockjson.Profile)
    (p : lockjson.Profile) (hp : p.name = name) (hpre : ∀ q ∈ pre, q.name ≠ name) :
    findProfile name (pre ++ p :: post) = some (pre.length, p) := by
  induction pre with
  | nil => simp [findProfile, hp]
  | cons q qs ih =>
    have hq : q.name ≠ name := hpre q (by simp)
    have := ih (fun r hr => hpre r (by simp [hr]))
    simp [findProfile, hq, this]

theorem findProfile_isSome_iff (name : String) (ps : List lockjson.Profile) :
    (∃ found, findProfile name ps = some found) ↔ ∃ p ∈ ps, p.name = name := by
  constructor
  · rintro ⟨⟨i, p⟩, h⟩
    obtain ⟨pre, post, hps, -, hname, -⟩ := findProfile_eq_some name ps i p h
    exact ⟨p, by simp [hps], hname⟩
  · rintro ⟨p, hp, hname⟩
    cases h : findProfile name ps with
    | some found => exact ⟨found, rfl⟩
    | none => exact absurd hname ((findProfile_eq_none_iff name ps).mp h p hp)

/-! ## C1: `set` of a name that is not in `profiles` -/

/-- C1, counterexample.  The name `nope` is not in `profiles`, yet with the
guard marker set `set nope` fails with the error of `transaction.Create`, not
with NotFound; and on a document whose `activeProfile` is the missing name
`gone`, `set gone` succeeds as a no-op. -/
theorem doSet_absent_counterexample :
    ((∀ p ∈ demoDoc.profiles, p.name ≠ "nope") ∧
      (doSet demoEnv ["nope"] { demoWorld with locked := true }).1 =
        some (.transaction "transaction lock exists") ∧
      (doSet demoEnv ["nope"] { demoWorld with locked := true }).1 ≠ some (notFound "nope")) ∧
    ((∀ p ∈ danglingDoc.profiles, p.name ≠ "gone") ∧
      (doSet demoEnv ["gone"] { demoWorld with disk := danglingDoc }).1 = none) := by
  decide

/-- C1, amended.  For every state document, every guard state and every
name that is not the name of any entry of `profiles`, `set name` never calls
`lockjson.Write` and leaves the persisted document unchanged; when moreover
the read succeeds, the guard is free and the name differs from
`activeProfile`, it fails with the NotFound error. -/
theorem doSet_absent (env : Env R) (w : World R) (name : String) (rest : List String)
    (habs : ∀ p ∈ w.disk.profiles, p.name ≠ name) :
    (∀ e ∈ calls w (doSet env (name :: rest) w).2, e.isWrite = false) ∧
    (doSet env (name :: rest) w).2.disk = w.disk ∧
    (env.readErr = none → w.locked = false → w.disk.activeProfile ≠ name →
      (doSet env (name :: rest) w).1 = some (notFound name)) := by
  have hf := (findProfile_eq_none_iff name w.disk.profiles).mpr habs
  cases hr : env.readErr <;>
  by_cases hact : w.disk.activeProfile = name <;>
  cases hl : w.locked <;>
  simp [doSet, lockjsonRead, transactionCreate, transactionRemove, println, calls,
    Event.isWrite, notFound, hr, hact, hf, hl]

/-- Witness of `doSet_absent`. -/
theorem doSet_absent_witness :
    (∀ p ∈ demoWorld.disk.profiles, p.name ≠ "nope") ∧
    (doSet demoEnv ["nope"] demoWorld).1 = some (notFound "nope") :=
  ⟨by decide,
    (doSet_absent demoEnv demoWorld "nope" [] (by decide)).2.2 rfl rfl (by decide)⟩

/-! ## C2: `add` with a repository that fails normalization -/

/-- When a raw repository fails normalization, `doAdd` drops the error of
`parseAddArgs` and behaves exactly like `add ""` without repositories. -/
theorem doAdd_of_normalize_error (env : Env R) (name : String) (raws : List String)
    (w : World R) (err : Error) (h : normalizeAll env raws [] = .error err) :
    doAdd env (name :: raws) w = doAdd env [""] w := by
  simp only [doAdd, parseAddArgs, h, normalizeAll]

/-- C2, evaluation at the failing input.  The raw string `bad` fails
normalization with the error of the normalizer, but `add default bad` returns
the NotFound error for the empty profile name instead; and when a profile
with the empty name exists, the same call acquires the guard, calls
`lockjson.Write` and returns no error at all. -/
theorem doAdd_normalize_failure_evaluated :
    normalizeAll demoEnv ["bad"] [] = .error (.pathutil "invalid repository") ∧
    (doAdd demoEnv ["default", "bad"] demoWorld).1 = some (notFound "") ∧
    (doAdd demoEnv ["default", "bad"] demoWorld).1 ≠
      some (.pathutil "invalid repository") ∧
    (doAdd demoEnv ["default", "bad"] { demoWorld with disk := emptyNameDoc }).1 = none ∧
    (doAdd demoEnv ["default", "bad"] { demoWorld with disk := emptyNameDoc }).2.trace =
      [.read, .create true, .write emptyNameDoc true, .remove] :=
  ⟨rfl, by decide, by decide, by decide, by decide⟩

/-! ## C3: a subcommand without NAME -/

/-- For `set`, `show`, `new` and `destroy` a missing NAME is absorbed by the
handler: exit code 0, no collaborator is called, only the usage and the
message are printed. -/
theorem Profile_missing_name_absorbed (env : Env R) (w : World R) (subCmd : String)
    (hsub : subCmd = "set" ∨ subCmd = "show" ∨ subCmd = "new" ∨ subCmd = "destroy") :
    (Profile env [subCmd] w).map (fun r => (r.1, r.2.trace, r.2.locked, r.2.disk)) =
      some (0, w.trace, w.locked, w.disk) := by
  rcases hsub with rfl | rfl | rfl | rfl <;>
  simp [Profile, parseArgs, flagParse, profileSubCmd, doSet, doShow, doNew, doDestroy,
    println, showUsage]

/-- C3, evaluation at the failing input.  `profile add` and `profile rm`
without NAME print the usage and then go on with the empty profile name: on a
document without such a profile `Profile` returns 11 after reporting the
NotFound error, and on a document that has a profile with the empty name it
acquires the guard and calls `lockjson.Write`. -/
theorem Profile_add_rm_missing_name_evaluated :
    (Profile demoEnv ["add"] demoWorld).map (fun r => (r.1, r.2.stdout.getLast?)) =
      some (11, some "[ERROR] profile '' does not exist") ∧
    (Profile demoEnv ["rm"] demoWorld).map (fun r => (r.1, r.2.stdout.getLast?)) =
      some (11, some "[ERROR] profile '' does not exist") ∧
    (Profile demoEnv ["add"] { demoWorld with disk := emptyNameDoc }).map
        (fun r => (r.1, r.2.trace)) =
      some (0, [.read, .create true, .write emptyNameDoc true, .remove]) ∧
    (Profile demoEnv ["rm"] { demoWorld with disk := emptyNameDoc }).map
        (fun r => (r.1, r.2.trace)) =
      some (0, [.read, .create true, .write emptyNameDoc true, .remove]) := by
  decide

/-! ## C4: guard discipline -/

@[simp] theorem println_trace (line : String) (w : World R) :
    (println line w).trace = w.trace := rfl

@[simp] theorem println_locked (line : String) (w : World R) :
    (println line w).locked = w.locked := rfl

@[simp] theorem println_disk (line : String) (w : World R) :
    (println line w).disk = w.disk := rfl

@[simp] theorem showUsage_trace (w : World R) : (showUsage w).trace = w.trace := rfl

@[simp] theorem showUsage_locked (w : World R) : (showUsage w).locked = w.locked := rfl

@[simp] theorem showUsage_disk (w : World R) : (showUsage w).disk = w.disk := rfl

theorem printEach_frame (f : String → String) (xs : List String) (w : World R) :
    (printEach f xs w).trace = w.trace ∧ (printEach f xs w).locked = w.locked ∧
      (printEach f xs w).disk = w.disk := by
  induction xs generalizing w with
  | nil => simp [printEach]
  | cons x xs ih => simp [printEach, ih]

theorem doAddModify_frame (ns : List String) (p : lockjson.Profile) (added : List String)
    (w : World R) :
    (doAddModify ns p added w).2.2.trace = w.trace ∧
      (doAddModify ns p added w).2.2.locked = w.locked ∧
      (doAddModify ns p added w).2.2.disk = w.disk := by
  induction ns generalizing p added w with
  | nil => simp [doAddModify]
  | cons n ns ih =>
    by_cases h : foundRepos n p.reposPath = true
    · simp [doAddModify, h, ih]
    · simp [doAddModify, h, ih]

theorem doRmModify_frame (ns : List String) (p : lockjson.Profile) (removed : List String)
    (w : World R) :
    (doRmModify ns p removed w).2.2.trace = w.trace ∧
      (doRmModify ns p removed w).2.2.locked = w.locked ∧
      (doRmModify ns p removed w).2.2.disk = w.disk := by
  induction ns generalizing p removed w with
  | nil => simp [doRmModify]
  | cons n ns ih =>
    cases h : findRepos n p.reposPath with
    | none => simp [doRmModify, h, ih]
    | some i => simp [doRmModify, h, ih]

theorem parseAddArgs_frame (env : Env R) (subCmd : String) (args : List String)
    (w : World R) :
    (parseAddArgs env subCmd args w).2.2.2.trace = w.trace ∧
      (parseAddArgs env subCmd args w).2.2.2.locked = w.locked ∧
      (parseAddArgs env subCmd args w).2.2.2.disk = w.disk := by
  cases args with
  | nil => simp [parseAddArgs]
  | cons name raws =>
    cases h : normalizeAll env raws [] <;> simp [parseAddArgs, h]

theorem doGet_shape (env : Env R) (args : List String) (w : World R) :
    (doGet env args w).2.trace = w.trace ++ [.read] ∧
      (doGet env args w).2.locked = w.locked := by
  cases hr : env.readErr <;> simp [doGet, lockjsonRead, hr]

theorem doShow_shape (env : Env R) (args : List String) (w : World R) :
    ((doShow env args w).2.trace = w.trace ∨ (doShow env args w).2.trace = w.trace ++ [.read]) ∧
      (doShow env args w).2.locked = w.locked := by
  cases args with
  | nil => simp [doShow]
  | cons name rest =>
    cases hr : env.readErr <;>
    cases hf : findProfile name w.disk.profiles <;>
    simp [doShow, lockjsonRead, hr, hf, printEach_frame]

theorem doSet_shape (env : Env R) (args : List String) (w : World R)
    (hfree : w.locked = false) :
    Guarded w.trace (doSet env args w).2.trace ∧ (doSet env args w).2.locked = false := by
  cases args with
  | nil => simp [doSet, hfree, Guarded]
  | cons name rest =>
    cases hr : env.readErr <;>
    by_cases hact : w.disk.activeProfile = name <;>
    cases hf : findProfile name w.disk.profiles <;>
    cases hw : env.writeErr { w.disk with activeProfile := name } <;>
    simp [doSet, lockjsonRead, transactionCreate, lockjsonWrite, transactionRemove,
      hfree, Guarded, hr, hact, hf, hw]

theorem doNew_shape (env : Env R) (args : List String) (w : World R)
    (hfree : w.locked = false) :
    Guarded w.trace (doNew env args w).2.trace ∧ (doNew env args w).2.locked = false := by
  cases args with
  | nil => simp [doNew, hfree, Guarded]
  | cons name rest =>
    cases hr : env.readErr <;>
    cases hf : findProfile name w.disk.profiles <;>
    cases hw : env.writeErr { w.disk with profiles := w.disk.profiles ++ [{ name := name, reposPath := [], loadInit := true }] } <;>
    simp [doNew, lockjsonRead, transactionCreate, lockjsonWrite, transactionRemove,
      hfree, Guarded, hr, hf, hw]

theorem doDestroy_shape (env : Env R) (args : List String) (w : World R)
    (hfree : w.locked = false) :
    Guarded w.trace (doDestroy env args w).2.trace ∧
      (doDestroy env args w).2.locked = false := by
  cases args with
  | nil => simp [doDestroy, hfree, Guarded]
  | cons name rest =>
    cases hr : env.readErr with
    | some msg => simp [doDestroy, lockjsonRead, hr, hfree, Guarded]
    | none =>
      cases hf : findProfile name w.disk.profiles with
      | none => simp [doDestroy, lockjsonRead, hr, hf, hfree, Guarded]
      | some found =>
        cases hw : env.writeErr { w.disk with profiles := w.disk.profiles.take found.1 ++ w.disk.profiles.drop (found.1 + 1) } <;>
        simp [doDestroy, lockjsonRead, transactionCreate, lockjsonWrite, transactionRemove,
          hfree, Guarded, hr, hf, hw]

theorem transactProfile_shape {σ : Type} (env : Env R) (name : String)
    (modifyProfile : lockjson.Profile → σ → World R → lockjson.Profile × σ × World R)
    (hframe : ∀ p c w, (modifyProfile p c w).2.2.trace = w.trace ∧
      (modifyProfile p c w).2.2.locked = w.locked ∧ (modifyProfile p c w).2.2.disk = w.disk)
    (c : σ) (w : World R) (hfree : w.locked = false) :
    Guarded w.trace (transactProfile env name modifyProfile c w).2.2.trace ∧
      (transactProfile env name modifyProfile c w).2.2.locked = false := by
  cases hr : env.readErr with
  | some msg => simp [transactProfile, lockjsonRead, hr, Guarded, hfree]
  | none =>
    cases hf : findProfile name w.disk.profiles with
    | none => simp [transactProfile, lockjsonRead, hr, hf, Guarded, hfree]
    | some found =>
      obtain ⟨i, p⟩ := found
      simp only [transactProfile, lockjsonRead, hr, hf, transactionCreate, hfree,
        Bool.false_eq_true, if_false]
      generalize hm : modifyProfile p c _ = m
      obtain ⟨p1, c1, w3⟩ := m
      have h1 := hframe p c { disk := w.disk, locked := true, trace := w.trace ++ [Event.read] ++ [Event.create true], stdout := w.stdout }
      rw [hm] at h1
      simp only at h1
      cases hw : env.writeErr { w.disk with profiles := w.disk.profiles.set i p1 } <;>
      simp [lockjsonWrite, transactionRemove, hw, h1, Guarded]

theorem doAdd_shape (env : Env R) (args : List String) (w : World R)
    (hfree : w.locked = false) :
    Guarded w.trace (doAdd env args w).2.trace ∧ (doAdd env args w).2.locked = false := by
  unfold doAdd
  generalize hp : parseAddArgs env "add" args w = parsed
  obtain ⟨name, ns, err, w1⟩ := parsed
  have hpf := parseAddArgs_frame env "add" args w
  rw [hp] at hpf
  simp only at hpf
  have ht := transactProfile_shape env name (doAddModify ns) (doAddModify_frame ns) []
    w1 (by rw [hpf.2.1]; exact hfree)
  rw [hpf.1] at ht
  dsimp only
  generalize transactProfile env name (doAddModify ns) [] w1 = res at ht ⊢
  obtain ⟨_ | e, added, w2⟩ := res
  · simpa [printEach_frame] using ht
  · simpa using ht

theorem doRm_shape (env : Env R) (args : List String) (w : World R)
    (hfree : w.locked = false) :
    Guarded w.trace (doRm env args w).2.trace ∧ (doRm env args w).2.locked = false := by
  unfold doRm
  generalize hp : parseAddArgs env "rm" args w = parsed
  obtain ⟨name, ns, err, w1⟩ := parsed
  have hpf := parseAddArgs_frame env "rm" args w
  rw [hp] at hpf
  simp only at hpf
  have ht := transactProfile_shape env name (doRmModify ns) (doRmModify_frame ns) []
    w1 (by rw [hpf.2.1]; exact hfree)
  rw [hpf.1] at ht
  dsimp only
  generalize transactProfile env name (doRmModify ns) [] w1 = res at ht ⊢
  obtain ⟨_ | e, removed, w2⟩ := res
  · simpa [printEach_frame] using ht
  · simpa using ht

theorem guarded_facts (t t1 : List (Event R)) (h : Guarded t t1) :
    t1 = t ++ t1.drop t.length ∧
    ((t1.drop t.length).filter Event.isCreate).length ≤ 1 ∧
    (∀ pre d ok post, t1.drop t.length = pre ++ Event.write d ok :: post →
      pre.filter Event.isCreate = [Event.create true] ∧ Event.remove ∉ pre) := by
  rcases h with h | h | h | ⟨d1, ok1, h⟩
  · subst h
    refine ⟨by simp, by simp, ?_⟩
    intro pre d ok post hsplit
    simp at hsplit
  · subst h
    refine ⟨by simp, by simp [Event.isCreate], ?_⟩
    intro pre d ok post hsplit
    rcases pre with _ | ⟨a, _ | ⟨b, pre⟩⟩ <;> simp at hsplit
  · subst h
    refine ⟨by simp, by simp [Event.isCreate], ?_⟩
    intro pre d ok post hsplit
    rcases pre with _ | ⟨a, _ | ⟨b, _ | ⟨c, _ | ⟨e, pre⟩⟩⟩⟩ <;> simp at hsplit
  · subst h
    refine ⟨by simp, by simp [Event.isCreate], ?_⟩
    intro pre d ok post hsplit
    rcases pre with _ | ⟨a, _ | ⟨b, _ | ⟨c, _ | ⟨e, pre⟩⟩⟩⟩ <;> simp at hsplit
    obtain ⟨rfl, rfl, -⟩ := hsplit
    simp [Event.isCreate]

/-- C4.  Guard discipline: whatever the subcommand, the arguments, the state
document and the outcomes of `lockjson.Read` and `lockjson.Write`, a handler
that starts with the marker clear only adds calls to the trace, calls
`transaction.Create` at most once, makes every `lockjson.Write` after exactly
one call of `Create`, which succeeded, and before any `Remove`, and returns
with the marker clear; `get` and `show` never call `Create`. -/
theorem guard_discipline (env : Env R) (subCmd : String)
    (fn : List String → World R → Option Error × World R)
    (hfn : profileSubCmd env subCmd = some fn) (args : List String) (w : World R)
    (hfree : w.locked = false) :
    (fn args w).2.trace = w.trace ++ calls w (fn args w).2 ∧
    ((calls w (fn args w).2).filter Event.isCreate).length ≤ 1 ∧
    (∀ pre d ok post, calls w (fn args w).2 = pre ++ Event.write d ok :: post →
      pre.filter Event.isCreate = [Event.create true] ∧ Event.remove ∉ pre) ∧
    (fn args w).2.locked = false ∧
    ((subCmd = "get" ∨ subCmd = "show") →
      ∀ e ∈ calls w (fn args w).2, e.isCreate = false) := by
  have key : ∀ g : List String → World R → Option Error × World R,
      (Guarded w.trace (g args w).2.trace ∧ (g args w).2.locked = false) →
      (g args w).2.trace = w.trace ++ calls w (g args w).2 ∧
      ((calls w (g args w).2).filter Event.isCreate).length ≤ 1 ∧
      (∀ pre d ok post, calls w (g args w).2 = pre ++ Event.write d ok :: post →
        pre.filter Event.isCreate = [Event.create true] ∧ Event.remove ∉ pre) ∧
      (g args w).2.locked = false := by
    intro g hg
    obtain ⟨h1, h2, h3⟩ := guarded_facts _ _ hg.1
    exact ⟨h1, h2, h3, hg.2⟩
  unfold profileSubCmd at hfn
  split_ifs at hfn with h1 h2 h3 h4 h5 h6 h7
  · cases hfn
    have hs := doGet_shape env args w
    have hg : Guarded w.trace (doGet env args w).2.trace ∧ (doGet env args w).2.locked = false :=
      ⟨Or.inr (Or.inl hs.1), by rw [hs.2]; exact hfree⟩
    obtain ⟨k1, k2, k3, k4⟩ := key _ hg
    refine ⟨k1, k2, k3, k4, ?_⟩
    intro _ e he
    simp only [calls, hs.1, List.drop_left, List.mem_singleton] at he
    subst he
    rfl
  · cases hfn
    obtain ⟨k1, k2, k3, k4⟩ := key _ (doSet_shape env args w hfree)
    exact ⟨k1, k2, k3, k4, by rintro (h | h) <;> simp [h2] at h⟩
  · cases hfn
    have hs := doShow_shape env args w
    have hg : Guarded w.trace (doShow env args w).2.trace ∧
        (doShow env args w).2.locked = false :=
      ⟨hs.1.elim Or.inl (fun h => Or.inr (Or.inl h)), by rw [hs.2]; exact hfree⟩
    obtain ⟨k1, k2, k3, k4⟩ := key _ hg
    refine ⟨k1, k2, k3, k4, ?_⟩
    intro _ e he
    rcases hs.1 with ht | ht
    · simp [calls, ht] at he
    · simp only [calls, ht, List.drop_left, List.mem_singleton] at he
      subst he
      rfl
  · cases hfn
    obtain ⟨k1, k2, k3, k4⟩ := key _ (doNew_shape env args w hfree)
    exact ⟨k1, k2, k3, k4, by rintro (h | h) <;> simp [h4] at h⟩
  · cases hfn
    obtain ⟨k1, k2, k3, k4⟩ := key _ (doDestroy_shape env args w hfree)
    exact ⟨k1, k2, k3, k4, by rintro (h | h) <;> simp [h5] at h⟩
  · cases hfn
    obtain ⟨k1, k2, k3, k4⟩ := key _ (doAdd_shape env args w hfree)
    exact ⟨k1, k2, k3, k4, by rintro (h | h) <;> simp [h6] at h⟩
  · cases hfn
    obtain ⟨k1, k2, k3, k4⟩ := key _ (doRm_shape env args w hfree)
    exact ⟨k1, k2, k3, k4, by rintro (h | h) <;> simp [h7] at h⟩

/-- Witness of `guard_discipline`: `add default b` on the demo world. -/
theorem guard_discipline_witness :
    profileSubCmd demoEnv "add" = some (doAdd demoEnv) ∧ demoWorld.locked = false ∧
    (doAdd demoEnv ["default", "b"] demoWorld).2.locked = false :=
  ⟨rfl, rfl,
    (guard_discipline demoEnv "add" (doAdd demoEnv) rfl ["default", "b"] demoWorld rfl).2.2.2.1⟩

/-! ## C5: the guard is already held -/

theorem normalizeAll_ok (env : Env R) (raws ns acc : List String)
    (h : Normalizes env raws ns) : normalizeAll env raws acc = .ok (acc ++ ns) := by
  induction h generalizing acc with
  | nil => simp [normalizeAll]
  | cons hn _ ih => simp [normalizeAll, hn, ih]

theorem doSet_locked (env : Env R) (args : List String) (w : World R)
    (hl : w.locked = true) : LockedOutcome env w (doSet env args w) := by
  cases args with
  | nil => simp [doSet, hl, LockedOutcome]
  | cons name rest =>
    cases hr : env.readErr <;>
    by_cases hact : w.disk.activeProfile = name <;>
    simp [doSet, lockjsonRead, transactionCreate, hl, LockedOutcome, hr, hact]

theorem doNew_locked (env : Env R) (args : List String) (w : World R)
    (hl : w.locked = true) : LockedOutcome env w (doNew env args w) := by
  cases args with
  | nil => simp [doNew, hl, LockedOutcome]
  | cons name rest =>
    cases hr : env.readErr <;>
    cases hf : findProfile name w.disk.profiles <;>
    simp [doNew, lockjsonRead, transactionCreate, hl, LockedOutcome, hr, hf]

theorem doDestroy_locked (env : Env R) (args : List String) (w : World R)
    (hl : w.locked = true) : LockedOutcome env w (doDestroy env args w) := by
  cases args with
  | nil => simp [doDestroy, hl, LockedOutcome]
  | cons name rest =>
    cases hr : env.readErr <;>
    cases hf : findProfile name w.disk.profiles <;>
    simp [doDestroy, lockjsonRead, transactionCreate, hl, LockedOutcome, hr, hf]

theorem transactProfile_locked {σ : Type} (env : Env R) (name : String)
    (modifyProfile : lockjson.Profile → σ → World R → lockjson.Profile × σ × World R)
    (c : σ) (w : World R) (hl : w.locked = true) :
    LockedOutcome env w ((transactProfile env name modifyProfile c w).1,
      (transactProfile env name modifyProfile c w).2.2) ∧
    (transactProfile env name modifyProfile c w).1 ≠ none := by
  cases hr : env.readErr <;>
  cases hf : findProfile name w.disk.profiles <;>
  simp [transactProfile, lockjsonRead, transactionCreate, hl, LockedOutcome, hr, hf]

theorem lockedOutcome_of_frame (env : Env R) (w w1 : World R) (r : Option Error × World R)
    (ht : w1.trace = w.trace) (hd : w1.disk = w.disk) (h : LockedOutcome env w1 r) :
    LockedOutcome env w r := by
  simpa [LockedOutcome, ht, hd] using h

theorem doAdd_locked (env : Env R) (args : List String) (w : World R)
    (hl : w.locked = true) : LockedOutcome env w (doAdd env args w) := by
  unfold doAdd
  generalize hp : parseAddArgs env "add" args w = parsed
  obtain ⟨name, ns, err, w1⟩ := parsed
  have hpf := parseAddArgs_frame env "add" args w
  rw [hp] at hpf
  simp only at hpf
  have ht := transactProfile_locked env name (doAddModify ns) [] w1 (by rw [hpf.2.1]; exact hl)
  dsimp only
  generalize transactProfile env name (doAddModify ns) [] w1 = res at ht ⊢
  obtain ⟨_ | e, added, w2⟩ := res
  · exact absurd rfl ht.2
  · exact lockedOutcome_of_frame env w w1 _ hpf.1 hpf.2.2 ht.1

theorem doRm_locked (env : Env R) (args : List String) (w : World R)
    (hl : w.locked = true) : LockedOutcome env w (doRm env args w) := by
  unfold doRm
  generalize hp : parseAddArgs env "rm" args w = parsed
  obtain ⟨name, ns, err, w1⟩ := parsed
  have hpf := parseAddArgs_frame env "rm" args w
  rw [hp] at hpf
  simp only at hpf
  have ht := transactProfile_locked env name (doRmModify ns) [] w1 (by rw [hpf.2.1]; exact hl)
  dsimp only
  generalize transactProfile env name (doRmModify ns) [] w1 = res at ht ⊢
  obtain ⟨_ | e, removed, w2⟩ := res
  · exact absurd rfl ht.2
  · exact lockedOutcome_of_frame env w w1 _ hpf.1 hpf.2.2 ht.1

theorem lockedOutcome_facts (env : Env R) (w : World R) (r : Option Error × World R)
    (h : LockedOutcome env w r) (hc : ∃ ok, Event.create ok ∈ calls w r.2) :
    r.1 = some (.transaction env.lockedMsg) ∧
    (∀ e ∈ calls w r.2, e.isWrite = false) ∧
    Event.remove ∉ calls w r.2 ∧ r.2.locked = true ∧ r.2.disk = w.disk := by
  obtain ⟨ok, hc⟩ := hc
  rcases h with ⟨ht | ht, -, -⟩ | ⟨ht, hres, hlk, hd⟩
  · simp [calls, ht] at hc
  · simp [calls, ht] at hc
  · refine ⟨hres, ?_, ?_, hlk, hd⟩
    · intro e he
      simp only [calls, ht, List.drop_left, List.mem_cons, List.mem_singleton,
        List.not_mem_nil, or_false] at he
      rcases he with rfl | rfl <;> rfl
    · simp [calls, ht]

theorem transactProfile_locked_reaches {σ : Type} (env : Env R) (name : String)
    (modifyProfile : lockjson.Profile → σ → World R → lockjson.Profile × σ × World R)
    (c : σ) (w : World R) (hl : w.locked = true) (hr : env.readErr = none)
    (hex : ∃ p ∈ w.disk.profiles, p.name = name) :
    transactProfile env name modifyProfile c w =
      (some (.transaction env.lockedMsg), c,
        { w with trace := w.trace ++ [.read, .create false] }) := by
  obtain ⟨found, hf⟩ := (findProfile_isSome_iff name w.disk.profiles).mpr hex
  simp [transactProfile, lockjsonRead, transactionCreate, hl, hr, hf]

/-- C5.  With the marker already set at the start: every handler that calls
`transaction.Create` returns the error of `Create`, calls neither
`lockjson.Write` nor `transaction.Remove`, and leaves the marker set and the
persisted document untouched.  And (the read succeeding) the handlers `set`
of a name other than the active profile, `new` of an absent name, `destroy`
of a present name, and `add` / `rm` on an existing profile with normalizable
repositories do call `Create`. -/
theorem locked_guard_fails_fast (env : Env R) (w : World R) (hl : w.locked = true) :
    (∀ subCmd fn args, profileSubCmd env subCmd = some fn →
      (∃ ok, Event.create ok ∈ calls w (fn args w).2) →
      (fn args w).1 = some (.transaction env.lockedMsg) ∧
      (∀ e ∈ calls w (fn args w).2, e.isWrite = false) ∧
      Event.remove ∉ calls w (fn args w).2 ∧
      (fn args w).2.locked = true ∧ (fn args w).2.disk = w.disk) ∧
    (env.readErr = none →
      (∀ name rest, name ≠ w.disk.activeProfile →
        Event.create false ∈ calls w (doSet env (name :: rest) w).2) ∧
      (∀ name rest, (∀ p ∈ w.disk.profiles, p.name ≠ name) →
        Event.create false ∈ calls w (doNew env (name :: rest) w).2) ∧
      (∀ name rest, (∃ p ∈ w.disk.profiles, p.name = name) →
        Event.create false ∈ calls w (doDestroy env (name :: rest) w).2) ∧
      (∀ name raws ns, (∃ p ∈ w.disk.profiles, p.name = name) → Normalizes env raws ns →
        Event.create false ∈ calls w (doAdd env (name :: raws) w).2 ∧
        Event.create false ∈ calls w (doRm env (name :: raws) w).2)) := by
  refine ⟨?_, fun hr => ⟨?_, ?_, ?_, ?_⟩⟩
  · intro subCmd fn args hfn hc
    have hout : LockedOutcome env w (fn args w) := by
      unfold profileSubCmd at hfn
      split_ifs at hfn <;> cases hfn
      · cases hrd : env.readErr <;> simp [doGet, lockjsonRead, hrd, LockedOutcome, hl]
      · exact doSet_locked env args w hl
      · have hs := doShow_shape env args w
        exact Or.inl ⟨hs.1, by rw [hs.2]; exact hl, by
          cases args with
          | nil => simp [doShow]
          | cons name rest =>
            cases hrd : env.readErr <;>
            cases hf : findProfile name w.disk.profiles <;>
            simp [doShow, lockjsonRead, hrd, hf, printEach_frame]⟩
      · exact doNew_locked env args w hl
      · exact doDestroy_locked env args w hl
      · exact doAdd_locked env args w hl
      · exact doRm_locked env args w hl
    exact lockedOutcome_facts env w _ hout hc
  · intro name rest hne
    have hact : ¬ w.disk.activeProfile = name := fun h => hne h.symm
    simp [doSet, lockjsonRead, transactionCreate, hl, hr, hact, calls]
  · intro name rest habs
    have hf := (findProfile_eq_none_iff name w.disk.profiles).mpr habs
    simp [doNew, lockjsonRead, transactionCreate, hl, hr, hf, calls]
  · intro name rest hex
    obtain ⟨found, hf⟩ := (findProfile_isSome_iff name w.disk.profiles).mpr hex
    simp [doDestroy, lockjsonRead, transactionCreate, hl, hr, hf, calls]
  · intro name raws ns hex hn
    have hnorm := normalizeAll_ok env raws ns [] hn
    simp only [List.nil_append] at hnorm
    constructor
    · simp [doAdd, parseAddArgs, hnorm,
        transactProfile_locked_reaches env name _ [] w hl hr hex, calls]
    · simp [doRm, parseAddArgs, hnorm,
        transactProfile_locked_reaches env name _ [] w hl hr hex, calls]

/-- Witness of `locked_guard_fails_fast`: `destroy default` while the marker
is set. -/
theorem locked_guard_fails_fast_witness :
    ({ demoWorld with locked := true } : World Unit).locked = true ∧
    (doDestroy demoEnv ["default"] { demoWorld with locked := true }).1 =
      some (.transaction demoEnv.lockedMsg) ∧
    (doDestroy demoEnv ["default"] { demoWorld with locked := true }).2.locked = true :=
  have h := (locked_guard_fails_fast demoEnv { demoWorld with locked := true } rfl).1
    "destroy" (doDestroy demoEnv) ["default"] rfl ⟨false, by decide⟩
  ⟨rfl, h.1, h.2.2.2.1⟩

/-! ## C6: what `add` writes and reports -/

theorem foundRepos_iff (r : String) (l : List String) : foundRepos r l = true ↔ r ∈ l := by
  induction l with
  | nil => simp [foundRepos]
  | cons x xs ih =>
    by_cases hx : x = r
    · simp [foundRepos, hx]
    · have hx1 : ¬ r = x := fun h => hx h.symm
      simp [foundRepos, hx, hx1, ih]

theorem mem_firstOccurrences (x : String) (l : List String) :
    x ∈ firstOccurrences l ↔ x ∈ l := by
  induction l with
  | nil => simp [firstOccurrences]
  | cons y ys ih =>
    by_cases hxy : x = y
    · simp [firstOccurrences, hxy]
    · simp [firstOccurrences, List.mem_filter, ih, hxy]

theorem firstOccurrences_filter (q : String → Bool) (l : List String) :
    firstOccurrences (l.filter q) = (firstOccurrences l).filter q := by
  induction l with
  | nil => simp [firstOccurrences]
  | cons y ys ih =>
    by_cases hq : q y = true
    · simp only [List.filter_cons, hq, if_true, firstOccurrences, ih, List.filter_filter]
      congr 1
      apply List.filter_congr
      intro x _
      exact Bool.and_comm _ _
    · simp only [List.filter_cons, hq, firstOccurrences, List.filter_filter]
      simp only [Bool.false_eq_true, if_false]
      rw [ih]
      apply List.filter_congr
      intro x _
      by_cases hxy : x = y
      · subst hxy
        simp [hq]
      · simp [hxy]

theorem firstOccurrences_nodup (l : List String) : (firstOccurrences l).Nodup := by
  induction l with
  | nil => simp [firstOccurrences]
  | cons y ys ih =>
    simp only [firstOccurrences, List.nodup_cons, List.mem_filter]
    exact ⟨by simp, ih.filter _⟩

theorem firstOccurrences_sublist (l : List String) : (firstOccurrences l).Sublist l := by
  induction l with
  | nil => simp [firstOccurrences]
  | cons y ys ih =>
    simp only [firstOccurrences]
    exact ((List.filter_sublist _).trans ih).cons₂ y

theorem mem_addedSpec (x : String) (old ns : List String) :
    x ∈ addedSpec old ns ↔ x ∈ ns ∧ x ∉ old := by
  simp [addedSpec, mem_firstOccurrences, List.mem_filter]

/-- The list `L` has no duplicates, holds exactly the identifiers of the batch
that are not in `old`, and lists them in the order of the batch. -/
theorem addedSpec_characterization (old ns : List String) :
    (addedSpec old ns).Nodup ∧ (∀ x, x ∈ addedSpec old ns ↔ x ∈ ns ∧ x ∉ old) ∧
      (addedSpec old ns).Sublist ns :=
  ⟨firstOccurrences_nodup _, fun x => mem_addedSpec x old ns,
    (firstOccurrences_sublist _).trans (List.filter_sublist _)⟩

theorem addedSpec_nil (old : List String) : addedSpec old [] = [] := rfl

theorem addedSpec_cons_of_mem (old : List String) (r : String) (rs : List String)
    (h : r ∈ old) : addedSpec old (r :: rs) = addedSpec old rs := by
  simp [addedSpec, h]

theorem addedSpec_cons_of_not_mem (old : List String) (r : String) (rs : List String)
    (h : r ∉ old) : addedSpec old (r :: rs) = r :: addedSpec (old ++ [r]) rs := by
  have hf : rs.filter (fun n => decide (n ∉ old ++ [r])) =
      (rs.filter (fun n => decide (n ∉ old))).filter (fun y => decide (y ≠ r)) := by
    rw [List.filter_filter]
    apply List.filter_congr
    intro x _
    simp [not_or, and_comm]
  simp only [addedSpec, List.filter_cons, h, not_false_eq_true, decide_True, if_true,
    firstOccurrences, hf, firstOccurrences_filter]

theorem diff_cons_of_not_mem (a : String) (l L : List String) (h : a ∉ L) :
    (a :: l).diff L = a :: l.diff L := by
  induction L generalizing l with
  | nil => simp
  | cons b bs ih =>
    have hab : a ≠ b := fun hab => h (by simp [hab])
    have hbs : a ∉ bs := fun hbs => h (by simp [hbs])
    rw [List.diff_cons, List.diff_cons, List.erase_cons_tail (by simpa using hab), ih _ hbs]

theorem printEach_eq (f : String → String) (xs : List String) (w : World R) :
    printEach f xs w = { w with stdout := w.stdout ++ xs.map f } := by
  induction xs generalizing w with
  | nil => simp [printEach]
  | cons x xs ih => simp [printEach, ih, println]

theorem doAddModify_spec (ns : List String) (p : lockjson.Profile) (added : List String)
    (w : World R) :
    doAddModify ns p added w =
      ({ p with reposPath := p.reposPath ++ addedSpec p.reposPath ns },
        added ++ addedSpec p.reposPath ns,
        { w with stdout := w.stdout ++
            (ns.diff (addedSpec p.reposPath ns)).map warnExists }) := by
  induction ns generalizing p added w with
  | nil => simp [doAddModify, addedSpec_nil]
  | cons r rs ih =>
    by_cases hr : r ∈ p.reposPath
    · have hnot : r ∉ addedSpec p.reposPath rs := fun hm =>
        ((mem_addedSpec r p.reposPath rs).mp hm).2 hr
      have hfound : foundRepos r p.reposPath = true := (foundRepos_iff r p.reposPath).mpr hr
      simp only [doAddModify, hfound, if_true, ih, addedSpec_cons_of_mem _ _ _ hr,
        diff_cons_of_not_mem r rs _ hnot]
      simp [println, warnExists]
    · have hfound : ¬ foundRepos r p.reposPath = true := fun h =>
        hr ((foundRepos_iff r p.reposPath).mp h)
      simp only [doAddModify, hfound, if_false, ih, addedSpec_cons_of_not_mem _ _ _ hr,
        List.diff_cons, List.erase_cons_head]
      simp

theorem set_length_append (pre post : List lockjson.Profile) (p p1 : lockjson.Profile) :
    (pre ++ p :: post).set pre.length p1 = pre ++ p1 :: post := by
  induction pre with
  | nil => simp
  | cons q qs ih => simp [ih]

theorem exists_first_profile (name : String) (ps : List lockjson.Profile)
    (h : ∃ p ∈ ps, p.name = name) :
    ∃ pre p post, ps = pre ++ p :: post ∧ p.name = name ∧ ∀ q ∈ pre, q.name ≠ name := by
  obtain ⟨⟨i, p⟩, hf⟩ := (findProfile_isSome_iff name ps).mpr h
  obtain ⟨pre, post, hps, -, hname, hpre⟩ := findProfile_eq_some name ps i p hf
  exact ⟨pre, p, post, hps, hname, hpre⟩

/-- The successful path of `transactProfile`: the profile is found, the guard
is free and the read succeeds. -/
theorem transactProfile_found {σ : Type} (env : Env R) (name : String)
    (modifyProfile : lockjson.Profile → σ → World R → lockjson.Profile × σ × World R)
    (c : σ) (w : World R) (pre post : List lockjson.Profile) (p : lockjson.Profile)
    (hdoc : w.disk.profiles = pre ++ p :: post) (hp : p.name = name)
    (hpre : ∀ q ∈ pre, q.name ≠ name) (hread : env.readErr = none)
    (hfree : w.locked = false) :
    transactProfile env name modifyProfile c w =
      ((lockjsonWrite env
          { w.disk with profiles := pre ++ (modifyProfile p c (afterAcquire w)).1 :: post }
          (modifyProfile p c (afterAcquire w)).2.2).1,
        (modifyProfile p c (afterAcquire w)).2.1,
        transactionRemove (lockjsonWrite env
          { w.disk with profiles := pre ++ (modifyProfile p c (afterAcquire w)).1 :: post }
          (modifyProfile p c (afterAcquire w)).2.2).2) := by
  have hf := findProfile_split name pre post p hp hpre
  rw [← hdoc] at hf
  simp only [transactProfile, lockjsonRead, hread, hf, transactionCreate, hfree,
    Bool.false_eq_true, if_false, List.append_assoc, List.singleton_append, afterAcquire]
  rw [hdoc, set_length_append]

theorem doAdd_eq (env : Env R) (w : World R) (name : String) (raws ns : List String)
    (pre post : List lockjson.Profile) (p : lockjson.Profile)
    (hdoc : w.disk.profiles = pre ++ p :: post) (hp : p.name = name)
    (hpre : ∀ q ∈ pre, q.name ≠ name) (hn : Normalizes env raws ns)
    (hread : env.readErr = none) (hfree : w.locked = false)
    (hwrite : env.writeErr
      (withReposPath w.disk pre p post (p.reposPath ++ addedSpec p.reposPath ns)) = none) :
    doAdd env (name :: raws) w =
      (none,
        { disk := withReposPath w.disk pre p post (p.reposPath ++ addedSpec p.reposPath ns)
          locked := false
          trace := w.trace ++ [.read, .create true,
            .write (withReposPath w.disk pre p post
              (p.reposPath ++ addedSpec p.reposPath ns)) true, .remove]
          stdout := w.stdout ++ (ns.diff (addedSpec p.reposPath ns)).map warnExists ++
            (addedSpec p.reposPath ns).map infoAdded }) := by
  have hnorm := normalizeAll_ok env raws ns [] hn
  simp only [List.nil_append] at hnorm
  simp only [withReposPath] at hwrite
  simp only [doAdd, parseAddArgs, hnorm,
    transactProfile_found env name _ [] w pre post p hdoc hp hpre hread hfree,
    doAddModify_spec, lockjsonWrite, hwrite, transactionRemove, printEach_eq,
    withReposPath, afterAcquire, List.nil_append, List.append_assoc, List.singleton_append,
    List.cons_append]
  rfl

/-- C6.  On a document that has a profile named `name`, with repositories
that all normalize (to `ns`), the guard free, the read and the write
succeeding, `add name repos` returns no error and writes, in one call made
while the guard is held, the original document in which only the `reposPath`
of the first profile named `name` has changed, from `old` to `old ++ L` with
`L = addedSpec old ns`; it reports exactly the identifiers of `L` as added
and every other identifier of the batch (`ns.diff L`) as a duplicate. -/
theorem doAdd_writes (env : Env R) (w : World R) (name : String) (raws ns : List String)
    (hex : ∃ p ∈ w.disk.profiles, p.name = name) (hn : Normalizes env raws ns)
    (hread : env.readErr = none) (hfree : w.locked = false)
    (hwrite : ∀ d, env.writeErr d = none) :
    ∃ pre p post, w.disk.profiles = pre ++ p :: post ∧ p.name = name ∧
      (∀ q ∈ pre, q.name ≠ name) ∧
      doAdd env (name :: raws) w =
        (none,
          { disk := withReposPath w.disk pre p post
              (p.reposPath ++ addedSpec p.reposPath ns)
            locked := false
            trace := w.trace ++ [.read, .create true,
              .write (withReposPath w.disk pre p post
                (p.reposPath ++ addedSpec p.reposPath ns)) true, .remove]
            stdout := w.stdout ++ (ns.diff (addedSpec p.reposPath ns)).map warnExists ++
              (addedSpec p.reposPath ns).map infoAdded }) := by
  obtain ⟨pre, p, post, hdoc, hp, hpre⟩ := exists_first_profile name w.disk.profiles hex
  exact ⟨pre, p, post, hdoc, hp, hpre,
    doAdd_eq env w name raws ns pre post p hdoc hp hpre hn hread hfree (hwrite _)⟩

/-- Witness of `doAdd_writes`: `add default a b b c` on the demo world. -/
theorem doAdd_writes_witness :
    (∃ p ∈ demoWorld.disk.profiles, p.name = "default") ∧
    Normalizes demoEnv ["a", "b", "b", "c"] ["a", "b", "b", "c"] ∧
    demoEnv.readErr = none ∧ demoWorld.locked = false ∧ (∀ d, demoEnv.writeErr d = none) ∧
    ∃ pre p post, demoWorld.disk.profiles = pre ++ p :: post ∧ p.name = "default" ∧
      (∀ q ∈ pre, q.name ≠ "default") ∧
      doAdd demoEnv ["default", "a", "b", "b", "c"] demoWorld =
        (none,
          { disk := withReposPath demoWorld.disk pre p post
              (p.reposPath ++ addedSpec p.reposPath ["a", "b", "b", "c"])
            locked := false
            trace := demoWorld.trace ++ [.read, .create true,
              .write (withReposPath demoWorld.disk pre p post
                (p.reposPath ++ addedSpec p.reposPath ["a", "b", "b", "c"])) true, .remove]
            stdout := demoWorld.stdout ++
              (["a", "b", "b", "c"].diff (addedSpec p.reposPath ["a", "b", "b", "c"])).map
                warnExists ++
              (addedSpec p.reposPath ["a", "b", "b", "c"]).map infoAdded }) :=
  have hex : ∃ p ∈ demoWorld.disk.profiles, p.name = "default" :=
    ⟨{ name := "default", reposPath := ["a"], loadInit := true }, by decide, rfl⟩
  have hn : Normalizes demoEnv ["a", "b", "b", "c"] ["a", "b", "b", "c"] :=
    .cons rfl (.cons rfl (.cons rfl (.cons rfl .nil)))
  ⟨hex, hn, rfl, rfl, fun _ => rfl,
    doAdd_writes demoEnv demoWorld "default" ["a", "b", "b", "c"] ["a", "b", "b", "c"]
      hex hn rfl rfl (fun _ => rfl)⟩

/-! ## C7: what `rm` writes and reports -/

theorem findRepos_eq_none_iff (r : String) (l : List String) :
    findRepos r l = none ↔ r ∉ l := by
  induction l with
  | nil => simp [findRepos]
  | cons x xs ih =>
    by_cases hx : x = r
    · simp [findRepos, hx]
    · have hx1 : ¬ r = x := fun h => hx h.symm
      simp [findRepos, hx, hx1, ih]

theorem findRepos_eq_some (r : String) (l : List String) (i : Nat)
    (h : findRepos r l = some i) : r ∈ l ∧ l.take i ++ l.drop (i + 1) = l.erase r := by
  induction l generalizing i with
  | nil => simp [findRepos] at h
  | cons x xs ih =>
    by_cases hx : x = r
    · simp only [findRepos, hx, if_true, Option.some.injEq] at h
      subst h
      simp [hx]
    · simp only [findRepos, hx, if_false, Option.map_eq_some'] at h
      obtain ⟨j, hj, rfl⟩ := h
      obtain ⟨hmem, herase⟩ := ih j hj
      refine ⟨by simp [hmem], ?_⟩
      rw [List.erase_cons_tail (by simpa using hx)]
      simp [herase]

theorem rmSpec_sublist (old ns : List String) : (rmSpec old ns).Sublist old := by
  induction ns generalizing old with
  | nil => simp [rmSpec]
  | cons r rs ih =>
    simp only [rmSpec, List.foldl_cons]
    exact (ih (old.erase r)).trans (List.erase_sublist r old)

theorem doRmModify_spec (ns : List String) (p : lockjson.Profile) (removed : List String)
    (w : World R) :
    doRmModify ns p removed w =
      ({ p with reposPath := rmSpec p.reposPath ns },
        removed ++ removedSpec p.reposPath ns,
        { w with stdout := w.stdout ++ (missingSpec p.reposPath ns).map warnMissing }) := by
  induction ns generalizing p removed w with
  | nil => simp [doRmModify, rmSpec, removedSpec, missingSpec]
  | cons r rs ih =>
    cases hf : findRepos r p.reposPath with
    | none =>
      have hr : r ∉ p.reposPath := (findRepos_eq_none_iff r p.reposPath).mp hf
      simp only [doRmModify, hf, ih, rmSpec, removedSpec, missingSpec, hr, if_false,
        List.foldl_cons, List.erase_of_not_mem hr]
      simp [println, warnMissing]
    | some i =>
      obtain ⟨hr, herase⟩ := findRepos_eq_some r p.reposPath i hf
      simp only [doRmModify, hf, ih, rmSpec, removedSpec, missingSpec, hr, if_true,
        List.foldl_cons, herase]
      simp

theorem doRm_eq (env : Env R) (w : World R) (name : String) (raws ns : List String)
    (pre post : List lockjson.Profile) (p : lockjson.Profile)
    (hdoc : w.disk.profiles = pre ++ p :: post) (hp : p.name = name)
    (hpre : ∀ q ∈ pre, q.name ≠ name) (hn : Normalizes env raws ns)
    (hread : env.readErr = none) (hfree : w.locked = false)
    (hwrite : env.writeErr
      (withReposPath w.disk pre p post (rmSpec p.reposPath ns)) = none) :
    doRm env (name :: raws) w =
      (none,
        { disk := withReposPath w.disk pre p post (rmSpec p.reposPath ns)
          locked := false
          trace := w.trace ++ [.read, .create true,
            .write (withReposPath w.disk pre p post (rmSpec p.reposPath ns)) true, .remove]
          stdout := w.stdout ++ (missingSpec p.reposPath ns).map warnMissing ++
            (removedSpec p.reposPath ns).map infoRemoved }) := by
  have hnorm := normalizeAll_ok env raws ns [] hn
  simp only [List.nil_append] at hnorm
  simp only [withReposPath] at hwrite
  simp only [doRm, parseAddArgs, hnorm,
    transactProfile_found env name _ [] w pre post p hdoc hp hpre hread hfree,
    doRmModify_spec, lockjsonWrite, hwrite, transactionRemove, printEach_eq,
    withReposPath, afterAcquire, List.nil_append, List.append_assoc, List.singleton_append,
    List.cons_append]
  rfl

/-- C7.  On a document that has a profile named `name`, with requested
repositories that all normalize (to `ns`), the guard free, the read and the
write succeeding, `rm name repos` returns no error and writes, in one call
made while the guard is held, the original document in which only the
`reposPath` of the first profile named `name` has changed: it is obtained by
erasing, for each requested identifier in order, its first exact match from
the current list (`rmSpec`), and so is a subsequence of the old list.  The
identifiers reported as removed are those for which a match was erased, the
others get the not-found diagnostic. -/
theorem doRm_writes (env : Env R) (w : World R) (name : String) (raws ns : List String)
    (hex : ∃ p ∈ w.disk.profiles, p.name = name) (hn : Normalizes env raws ns)
    (hread : env.readErr = none) (hfree : w.locked = false)
    (hwrite : ∀ d, env.writeErr d = none) :
    ∃ pre p post, w.disk.profiles = pre ++ p :: post ∧ p.name = name ∧
      (∀ q ∈ pre, q.name ≠ name) ∧
      (rmSpec p.reposPath ns).Sublist p.reposPath ∧
      doRm env (name :: raws) w =
        (none,
          { disk := withReposPath w.disk pre p post (rmSpec p.reposPath ns)
            locked := false
            trace := w.trace ++ [.read, .create true,
              .write (withReposPath w.disk pre p post (rmSpec p.reposPath ns)) true, .remove]
            stdout := w.stdout ++ (missingSpec p.reposPath ns).map warnMissing ++
              (removedSpec p.reposPath ns).map infoRemoved }) := by
  obtain ⟨pre, p, post, hdoc, hp, hpre⟩ := exists_first_profile name w.disk.profiles hex
  exact ⟨pre, p, post, hdoc, hp, hpre, rmSpec_sublist _ _,
    doRm_eq env w name raws ns pre post p hdoc hp hpre hn hread hfree (hwrite _)⟩

/-- Witness of `doRm_writes`: `rm default b a a` on the demo world. -/
theorem doRm_writes_witness :
    (∃ p ∈ demoWorld.disk.profiles, p.name = "default") ∧
    Normalizes demoEnv ["b", "a", "a"] ["b", "a", "a"] ∧
    demoEnv.readErr = none ∧ demoWorld.locked = false ∧ (∀ d, demoEnv.writeErr d = none) ∧
    ∃ pre p post, demoWorld.disk.profiles = pre ++ p :: post ∧ p.name = "default" ∧
      (∀ q ∈ pre, q.name ≠ "default") ∧
      (rmSpec p.reposPath ["b", "a", "a"]).Sublist p.reposPath ∧
      doRm demoEnv ["default", "b", "a", "a"] demoWorld =
        (none,
          { disk := withReposPath demoWorld.disk pre p post
              (rmSpec p.reposPath ["b", "a", "a"])
            locked := false
            trace := demoWorld.trace ++ [.read, .create true,
              .write (withReposPath demoWorld.disk pre p post
                (rmSpec p.reposPath ["b", "a", "a"])) true, .remove]
            stdout := demoWorld.stdout ++
              (missingSpec p.reposPath ["b", "a", "a"]).map warnMissing ++
              (removedSpec p.reposPath ["b", "a", "a"]).map infoRemoved }) :=
  have hex : ∃ p ∈ demoWorld.disk.profiles, p.name = "default" :=
    ⟨{ name := "default", reposPath := ["a"], loadInit := true }, by decide, rfl⟩
  have hn : Normalizes demoEnv ["b", "a", "a"] ["b", "a", "a"] :=
    .cons rfl (.cons rfl (.cons rfl .nil))
  ⟨hex, hn, rfl, rfl, fun _ => rfl,
    doRm_writes demoEnv demoWorld "default" ["b", "a", "a"] ["b", "a", "a"]
      hex hn rfl rfl (fun _ => rfl)⟩

/-! ## C8: `add` followed by `rm` of the same repositories -/

theorem rmSpec_append_of_not_mem (old L ns : List String) (h : ∀ r ∈ ns, r ∉ old) :
    rmSpec (old ++ L) ns = old ++ rmSpec L ns := by
  induction ns generalizing L with
  | nil => simp [rmSpec]
  | cons r rs ih =>
    have hr : r ∉ old := h r (by simp)
    simp only [rmSpec, List.foldl_cons, List.erase_append_right _ hr]
    exact ih (L.erase r) (fun x hx => h x (by simp [hx]))

theorem rmSpec_eq_nil_of_subset (l ns : List String) (hnd : l.Nodup)
    (hsub : ∀ x ∈ l, x ∈ ns) : rmSpec l ns = [] := by
  induction ns generalizing l with
  | nil =>
    cases l with
    | nil => rfl
    | cons x xs => exact absurd (hsub x (by simp)) (by simp)
  | cons r rs ih =>
    simp only [rmSpec, List.foldl_cons]
    apply ih (l.erase r) (hnd.erase r)
    intro x hx
    have hxr : x ≠ r := fun hxr => by
      subst hxr
      exact (List.Nodup.not_mem_erase hnd) hx
    have hxl : x ∈ l := List.mem_of_mem_erase hx
    rcases List.mem_cons.mp (hsub x hxl) with h | h
    · exact absurd h hxr
    · exact h

/-- Adding a batch of identifiers none of which is in `old`, then removing
the same batch, gives `old` back. -/
theorem rmSpec_addedSpec (old ns : List String) (h : ∀ r ∈ ns, r ∉ old) :
    rmSpec (old ++ addedSpec old ns) ns = old := by
  rw [rmSpec_append_of_not_mem old _ ns h,
    rmSpec_eq_nil_of_subset _ ns (addedSpec_characterization old ns).1
      (fun x hx => ((mem_addedSpec x old ns).mp hx).1)]
  simp

theorem withReposPath_self (doc : lockjson.LockJSON R) (pre post : List lockjson.Profile)
    (p : lockjson.Profile) (h : doc.profiles = pre ++ p :: post) :
    withReposPath doc pre p post p.reposPath = doc := by
  cases doc
  simp only [withReposPath]
  simp only at h
  rw [h]

theorem withReposPath_twice (doc : lockjson.LockJSON R) (pre post : List lockjson.Profile)
    (p : lockjson.Profile) (l1 l2 : List String) :
    withReposPath (withReposPath doc pre p post l1) pre { p with reposPath := l1 } post l2 =
      withReposPath doc pre p post l2 := rfl

/-- C8, counterexample.  The profile `default` holds `["a"]`; `add default a b`
followed by `rm default a b` both succeed and leave it with `[]`: `a` was
skipped by `add` as a duplicate and then removed by `rm`. -/
theorem add_rm_counterexample :
    demoWorld.disk.profiles = [{ name := "default", reposPath := ["a"], loadInit := true }] ∧
    (doAdd demoEnv ["default", "a", "b"] demoWorld).1 = none ∧
    (doRm demoEnv ["default", "a", "b"]
      (doAdd demoEnv ["default", "a", "b"] demoWorld).2).1 = none ∧
    (doRm demoEnv ["default", "a", "b"]
      (doAdd demoEnv ["default", "a", "b"] demoWorld).2).2.disk.profiles =
      [{ name := "default", reposPath := [], loadInit := true }] := by
  decide

/-- C8, amended.  Let `p` be the first profile named `name`, and let `r1`,
`r2` normalize to identifiers that do not occur in the `reposPath` of `p`.
With the guard free and the reads and writes succeeding, `add name r1 r2`
followed by `rm name r1 r2` succeeds twice and leaves the persisted document,
hence the `reposPath` of `p` and its order, exactly as before the `add`. -/
theorem add_then_rm_restores (env : Env R) (w : World R) (name r1 r2 n1 n2 : String)
    (pre post : List lockjson.Profile) (p : lockjson.Profile)
    (hdoc : w.disk.profiles = pre ++ p :: post) (hp : p.name = name)
    (hpre : ∀ q ∈ pre, q.name ≠ name)
    (h1 : env.normalize r1 = .ok n1) (h2 : env.normalize r2 = .ok n2)
    (hn1 : n1 ∉ p.reposPath) (hn2 : n2 ∉ p.reposPath)
    (hread : env.readErr = none) (hfree : w.locked = false)
    (hwrite : ∀ d, env.writeErr d = none) :
    (doAdd env [name, r1, r2] w).1 = none ∧
    (doAdd env [name, r1, r2] w).2.disk =
      withReposPath w.disk pre p post (p.reposPath ++ addedSpec p.reposPath [n1, n2]) ∧
    (doRm env [name, r1, r2] (doAdd env [name, r1, r2] w).2).1 = none ∧
    (doRm env [name, r1, r2] (doAdd env [name, r1, r2] w).2).2.disk = w.disk := by
  have hn : Normalizes env [r1, r2] [n1, n2] := .cons h1 (.cons h2 .nil)
  have hadd := doAdd_eq env w name [r1, r2] [n1, n2] pre post p hdoc hp hpre hn hread hfree
    (hwrite _)
  rw [hadd]
  refine ⟨rfl, rfl, ?_⟩
  have hrm := doRm_eq env
    { disk := withReposPath w.disk pre p post (p.reposPath ++ addedSpec p.reposPath [n1, n2])
      locked := false
      trace := w.trace ++ [.read, .create true,
        .write (withReposPath w.disk pre p post
          (p.reposPath ++ addedSpec p.reposPath [n1, n2])) true, .remove]
      stdout := w.stdout ++ ([n1, n2].diff (addedSpec p.reposPath [n1, n2])).map warnExists ++
        (addedSpec p.reposPath [n1, n2]).map infoAdded }
    name [r1, r2] [n1, n2] pre post
    { p with reposPath := p.reposPath ++ addedSpec p.reposPath [n1, n2] }
    rfl hp hpre hn hread rfl (hwrite _)
  rw [hrm]
  refine ⟨rfl, ?_⟩
  have hall : ∀ r ∈ [n1, n2], r ∉ p.reposPath := by
    intro r hr
    rcases List.mem_cons.mp hr with rfl | hr
    · exact hn1
    · rw [List.mem_singleton.mp hr]
      exact hn2
  simp only [withReposPath_twice, rmSpec_addedSpec p.reposPath [n1, n2] hall]
  exact withReposPath_self w.disk pre post p hdoc

/-- Witness of `add_then_rm_restores`: `add default b c` then `rm default b c`
on the demo world. -/
theorem add_then_rm_restores_witness :
    demoWorld.disk.profiles =
      [] ++ { name := "default", reposPath := ["a"], loadInit := true } :: [] ∧
    "b" ∉ ["a"] ∧ "c" ∉ ["a"] ∧
    (doRm demoEnv ["default", "b", "c"]
      (doAdd demoEnv ["default", "b", "c"] demoWorld).2).2.disk = demoWorld.disk :=
  ⟨rfl, by decide, by decide,
    (add_then_rm_restores demoEnv demoWorld "default" "b" "c" "b" "c" [] []
      { name := "default", reposPath := ["a"], loadInit := true } rfl rfl
      (by simp) rfl rfl (by decide) (by decide) rfl rfl (fun _ => rfl)).2.2.2⟩

/-! ## C9: the same `add` twice -/

theorem addedSpec_singleton_of_mem (old : List String) (n : String) (h : n ∈ old) :
    addedSpec old [n] = [] := by
  rw [addedSpec_cons_of_mem old n [] h, addedSpec_nil]

theorem addedSpec_singleton_of_not_mem (old : List String) (n : String) (h : n ∉ old) :
    addedSpec old [n] = [n] := by
  rw [addedSpec_cons_of_not_mem old n [] h, addedSpec_nil]

theorem mem_append_addedSpec_singleton (old : List String) (n : String) :
    n ∈ old ++ addedSpec old [n] := by
  by_cases h : n ∈ old
  · simp [h]
  · simp [addedSpec_singleton_of_not_mem old n h]

theorem count_append_addedSpec_singleton (old : List String) (n : String)
    (hcount : old.count n ≤ 1) : (old ++ addedSpec old [n]).count n = 1 := by
  by_cases h : n ∈ old
  · have hpos : 0 < old.count n := List.count_pos_iff.mpr h
    rw [addedSpec_singleton_of_mem old n h, List.append_nil]
    omega
  · rw [addedSpec_singleton_of_not_mem old n h, List.count_append, List.count_eq_zero_of_not_mem h]
    simp

/-- Two `add name r` in a row, for the first profile `p` named `name`, when
the normalized identifier `n` occurs at most once in the `reposPath` of `p`. -/
theorem add_twice_of_count_le_one (env : Env R) (w : World R) (name r n : String)
    (pre post : List lockjson.Profile) (p : lockjson.Profile)
    (hdoc : w.disk.profiles = pre ++ p :: post) (hp : p.name = name)
    (hpre : ∀ q ∈ pre, q.name ≠ name) (hr : env.normalize r = .ok n)
    (hcount : p.reposPath.count n ≤ 1)
    (hread : env.readErr = none) (hfree : w.locked = false)
    (hwrite : ∀ d, env.writeErr d = none) :
    (doAdd env [name, r] w).1 = none ∧
    (doAdd env [name, r] (doAdd env [name, r] w).2).1 = none ∧
    (doAdd env [name, r] w).2.disk =
      withReposPath w.disk pre p post (p.reposPath ++ addedSpec p.reposPath [n]) ∧
    (p.reposPath ++ addedSpec p.reposPath [n]).count n = 1 ∧
    (doAdd env [name, r] (doAdd env [name, r] w).2).2.disk = (doAdd env [name, r] w).2.disk ∧
    (doAdd env [name, r] (doAdd env [name, r] w).2).2.trace =
      (doAdd env [name, r] w).2.trace ++
        [.read, .create true, .write (doAdd env [name, r] w).2.disk true, .remove] ∧
    (doAdd env [name, r] (doAdd env [name, r] w).2).2.stdout =
      (doAdd env [name, r] w).2.stdout ++ [warnExists n] := by
  have hn : Normalizes env [r] [n] := .cons hr .nil
  have hadd := doAdd_eq env w name [r] [n] pre post p hdoc hp hpre hn hread hfree (hwrite _)
  rw [hadd]
  have hmem := mem_append_addedSpec_singleton p.reposPath n
  have hadd2 := doAdd_eq env
    { disk := withReposPath w.disk pre p post (p.reposPath ++ addedSpec p.reposPath [n])
      locked := false
      trace := w.trace ++ [.read, .create true,
        .write (withReposPath w.disk pre p post
          (p.reposPath ++ addedSpec p.reposPath [n])) true, .remove]
      stdout := w.stdout ++ ([n].diff (addedSpec p.reposPath [n])).map warnExists ++
        (addedSpec p.reposPath [n]).map infoAdded }
    name [r] [n] pre post { p with reposPath := p.reposPath ++ addedSpec p.reposPath [n] }
    rfl hp hpre hn hread rfl (hwrite _)
  rw [hadd2]
  refine ⟨rfl, rfl, rfl, count_append_addedSpec_singleton p.reposPath n hcount, ?_, ?_, ?_⟩
  · simp only [addedSpec_singleton_of_mem _ n hmem, List.append_nil, withReposPath_twice]
  · simp only [addedSpec_singleton_of_mem _ n hmem, List.append_nil, withReposPath_twice]
  · simp [addedSpec_singleton_of_mem _ n hmem]

/-- C9.  For every state document of the data model (no profile lists an
identifier twice) that has a profile named `name`, and every repository `r`
that normalizes (to `n`), with the guard free and the reads and writes
succeeding: `add name r` run twice in succession succeeds twice, and the
`reposPath` of the first profile named `name` then contains `n` exactly once;
the second call writes the very document the first one wrote (it appends
nothing) and reports `n` as a duplicate, printing that diagnostic and nothing
else. -/
theorem add_twice (env : Env R) (w : World R) (name r n : String)
    (hex : ∃ p ∈ w.disk.profiles, p.name = name) (hnodup : ReposNodup w.disk)
    (hr : env.normalize r = .ok n)
    (hread : env.readErr = none) (hfree : w.locked = false)
    (hwrite : ∀ d, env.writeErr d = none) :
    ∃ pre p post reposPath, w.disk.profiles = pre ++ p :: post ∧ p.name = name ∧
      (∀ q ∈ pre, q.name ≠ name) ∧
      (doAdd env [name, r] w).1 = none ∧
      (doAdd env [name, r] (doAdd env [name, r] w).2).1 = none ∧
      (doAdd env [name, r] (doAdd env [name, r] w).2).2.disk =
        withReposPath w.disk pre p post reposPath ∧
      reposPath.count n = 1 ∧
      (doAdd env [name, r] (doAdd env [name, r] w).2).2.disk =
        (doAdd env [name, r] w).2.disk ∧
      (doAdd env [name, r] (doAdd env [name, r] w).2).2.trace =
        (doAdd env [name, r] w).2.trace ++
          [.read, .create true, .write (doAdd env [name, r] w).2.disk true, .remove] ∧
      (doAdd env [name, r] (doAdd env [name, r] w).2).2.stdout =
        (doAdd env [name, r] w).2.stdout ++ [warnExists n] := by
  obtain ⟨pre, p, post, hdoc, hp, hpre⟩ := exists_first_profile name w.disk.profiles hex
  have hpn : p.reposPath.Nodup := hnodup p (by simp [hdoc])
  have hcount : p.reposPath.count n ≤ 1 := List.nodup_iff_count_le_one.mp hpn n
  obtain ⟨h1, h2, h3, h4, h5, h6, h7⟩ :=
    add_twice_of_count_le_one env w name r n pre post p hdoc hp hpre hr hcount hread hfree
      hwrite
  exact ⟨pre, p, post, p.reposPath ++ addedSpec p.reposPath [n], hdoc, hp, hpre, h1, h2,
    h5.trans h3, h4, h5, h6, h7⟩

/-- Witness of `add_twice`: `add default b` twice on the demo world. -/
theorem add_twice_witness :
    (∃ p ∈ demoWorld.disk.profiles, p.name = "default") ∧ ReposNodup demoWorld.disk ∧
    demoEnv.normalize "b" = .ok "b" ∧
    (doAdd demoEnv ["default", "b"] (doAdd demoEnv ["default", "b"] demoWorld).2).1 = none ∧
    (doAdd demoEnv ["default", "b"] (doAdd demoEnv ["default", "b"] demoWorld).2).2.disk =
      (doAdd demoEnv ["default", "b"] demoWorld).2.disk :=
  have hex : ∃ p ∈ demoWorld.disk.profiles, p.name = "default" :=
    ⟨{ name := "default", reposPath := ["a"], loadInit := true }, by decide, rfl⟩
  have hnodup : ReposNodup demoWorld.disk := by
    intro p hp
    simp only [demoWorld, demoDoc, List.mem_singleton] at hp
    subst hp
    decide
  have h := add_twice demoEnv demoWorld "default" "b" "b" hex hnodup rfl rfl rfl
    (fun _ => rfl)
  ⟨hex, hnodup, rfl,
    h.elim fun _ h => h.elim fun _ h => h.elim fun _ h => h.elim fun _ h => h.2.2.2.2.1,
    h.elim fun _ h => h.elim fun _ h => h.elim fun _ h => h.elim fun _ h =>
      h.2.2.2.2.2.2.2.1⟩

/-! ## C10: `new` followed by `destroy` -/

theorem doNew_eq (env : Env R) (w : World R) (name : String) (rest : List String)
    (habs : ∀ p ∈ w.disk.profiles, p.name ≠ name)
    (hread : env.readErr = none) (hfree : w.locked = false)
    (hwrite : ∀ d, env.writeErr d = none) :
    doNew env (name :: rest) w =
      (none,
        { disk := { w.disk with profiles := w.disk.profiles ++
              [{ name := name, reposPath := [], loadInit := true }] }
          locked := false
          trace := w.trace ++ [.read, .create true,
            .write { w.disk with profiles := w.disk.profiles ++
              [{ name := name, reposPath := [], loadInit := true }] } true, .remove]
          stdout := w.stdout ++ ["[INFO] Created new profile '" ++ name ++ "'"] }) := by
  have hf := (findProfile_eq_none_iff name w.disk.profiles).mpr habs
  simp [doNew, lockjsonRead, transactionCreate, lockjsonWrite, transactionRemove, println,
    hread, hfree, hf, hwrite]

theorem doDestroy_eq (env : Env R) (w : World R) (name : String) (rest : List String)
    (pre post : List lockjson.Profile) (p : lockjson.Profile)
    (hdoc : w.disk.profiles = pre ++ p :: post) (hp : p.name = name)
    (hpre : ∀ q ∈ pre, q.name ≠ name)
    (hread : env.readErr = none) (hfree : w.locked = false)
    (hwrite : ∀ d, env.writeErr d = none) :
    doDestroy env (name :: rest) w =
      (none,
        { disk := { w.disk with profiles := pre ++ post }
          locked := false
          trace := w.trace ++ [.read, .create true,
            .write { w.disk with profiles := pre ++ post } true, .remove]
          stdout := w.stdout ++ ["[INFO] Deleted profile '" ++ name ++ "'"] }) := by
  have hf := findProfile_split name pre post p hp hpre
  rw [← hdoc] at hf
  have htake : w.disk.profiles.take pre.length ++ w.disk.profiles.drop (pre.length + 1) =
      pre ++ post := by
    rw [hdoc]
    simp
  simp [doDestroy, lockjsonRead, transactionCreate, lockjsonWrite, transactionRemove, println,
    hread, hfree, hf, hwrite, htake]

/-- C10.  For every state document and every name that is not the name of
any profile, with the guard free and the reads and writes succeeding:
`new name` succeeds and appends the profile at the end, `destroy name` right
after it succeeds as well, and the persisted document is then equal to the
one before `new`: the same profiles in the same order and the same
`activeProfile`; the guard is free again. -/
theorem new_then_destroy_restores (env : Env R) (w : World R) (name : String)
    (habs : ∀ p ∈ w.disk.profiles, p.name ≠ name)
    (hread : env.readErr = none) (hfree : w.locked = false)
    (hwrite : ∀ d, env.writeErr d = none) :
    (doNew env [name] w).1 = none ∧
    (doNew env [name] w).2.disk = { w.disk with profiles := w.disk.profiles ++
      [{ name := name, reposPath := [], loadInit := true }] } ∧
    (doDestroy env [name] (doNew env [name] w).2).1 = none ∧
    (doDestroy env [name] (doNew env [name] w).2).2.disk = w.disk ∧
    (doDestroy env [name] (doNew env [name] w).2).2.locked = false := by
  rw [doNew_eq env w name [] habs hread hfree hwrite]
  refine ⟨rfl, rfl, ?_⟩
  rw [doDestroy_eq env _ name [] w.disk.profiles []
    { name := name, reposPath := [], loadInit := true } rfl rfl habs hread rfl hwrite]
  refine ⟨rfl, ?_, rfl⟩
  simp

/-- Witness of `new_then_destroy_restores`: `new work` then `destroy work` on
the demo world. -/
theorem new_then_destroy_restores_witness :
    (∀ p ∈ demoWorld.disk.profiles, p.name ≠ "work") ∧
    (doDestroy demoEnv ["work"] (doNew demoEnv ["work"] demoWorld).2).2.disk =
      demoWorld.disk :=
  ⟨by decide,
    (new_then_destroy_restores demoEnv demoWorld "work" (by decide) rfl rfl
      (fun _ => rfl)).2.2.2.1⟩

/-! ## What a handler can leave on disk -/

theorem doGet_disk (env : Env R) (args : List String) (w : World R) :
    (doGet env args w).2.disk = w.disk := by
  cases hr : env.readErr <;> simp [doGet, lockjsonRead, hr]

theorem doShow_disk (env : Env R) (args : List String) (w : World R) :
    (doShow env args w).2.disk = w.disk := by
  cases args with
  | nil => simp [doShow]
  | cons name rest =>
    cases hr : env.readErr <;>
    cases hf : findProfile name w.disk.profiles <;>
    simp [doShow, lockjsonRead, hr, hf, printEach_frame]

theorem doSet_disk (env : Env R) (args : List String) (w : World R) :
    (doSet env args w).2.disk = w.disk ∨
    ∃ name rest, args = name :: rest ∧ (∃ p ∈ w.disk.profiles, p.name = name) ∧
      (doSet env args w).2.disk = { w.disk with activeProfile := name } := by
  cases args with
  | nil => simp [doSet]
  | cons name rest =>
    cases hf : findProfile name w.disk.profiles with
    | none =>
      left
      cases hr : env.readErr <;>
      by_cases hact : w.disk.activeProfile = name <;>
      cases hl : w.locked <;>
      simp [doSet, lockjsonRead, transactionCreate, transactionRemove, hr, hact, hf, hl]
    | some found =>
      have hex : ∃ p ∈ w.disk.profiles, p.name = name :=
        (findProfile_isSome_iff name w.disk.profiles).mp ⟨found, hf⟩
      cases hr : env.readErr <;>
      by_cases hact : w.disk.activeProfile = name <;>
      cases hl : w.locked <;>
      cases hw : env.writeErr { w.disk with activeProfile := name } <;>
      simp [doSet, lockjsonRead, transactionCreate, lockjsonWrite, transactionRemove,
        hr, hact, hf, hl, hw, hex]

theorem doNew_disk (env : Env R) (args : List String) (w : World R) :
    (doNew env args w).2.disk = w.disk ∨
    ∃ name rest, args = name :: rest ∧ (∀ p ∈ w.disk.profiles, p.name ≠ name) ∧
      (doNew env args w).2.disk = { w.disk with profiles := w.disk.profiles ++
        [{ name := name, reposPath := [], loadInit := true }] } := by
  cases args with
  | nil => simp [doNew]
  | cons name rest =>
    cases hf : findProfile name w.disk.profiles with
    | some found =>
      left
      cases hr : env.readErr <;> simp [doNew, lockjsonRead, hr, hf]
    | none =>
      have habs := (findProfile_eq_none_iff name w.disk.profiles).mp hf
      cases hr : env.readErr with
      | some msg => simp [doNew, lockjsonRead, hr]
      | none =>
        cases hl : w.locked with
        | true => simp [doNew, lockjsonRead, transactionCreate, hr, hf, hl]
        | false =>
          cases hw : env.writeErr { w.disk with profiles := w.disk.profiles ++ [{ name := name, reposPath := [], loadInit := true }] } with
          | some msg =>
            left
            simp [doNew, lockjsonRead, transactionCreate, lockjsonWrite, transactionRemove,
              hr, hf, hl, hw]
          | none =>
            right
            refine ⟨name, rest, rfl, habs, ?_⟩
            simp [doNew, lockjsonRead, transactionCreate, lockjsonWrite, transactionRemove,
              hr, hf, hl, hw]

theorem take_drop_split (pre post : List lockjson.Profile) (p : lockjson.Profile) :
    (pre ++ p :: post).take pre.length ++ (pre ++ p :: post).drop (pre.length + 1) =
      pre ++ post := by
  simp

theorem doDestroy_disk (env : Env R) (args : List String) (w : World R) :
    (doDestroy env args w).2.disk = w.disk ∨
    ∃ name rest pre p post, args = name :: rest ∧ w.disk.profiles = pre ++ p :: post ∧
      p.name = name ∧ (∀ q ∈ pre, q.name ≠ name) ∧
      (doDestroy env args w).2.disk = { w.disk with profiles := pre ++ post } := by
  cases args with
  | nil => simp [doDestroy]
  | cons name rest =>
    cases hf : findProfile name w.disk.profiles with
    | none =>
      left
      cases hr : env.readErr <;> simp [doDestroy, lockjsonRead, hr, hf]
    | some found =>
      obtain ⟨i, p⟩ := found
      obtain ⟨pre, post, hdoc, hlen, hp, hpre⟩ :=
        findProfile_eq_some name w.disk.profiles i p hf
      subst hlen
      have htake : w.disk.profiles.take pre.length ++ w.disk.profiles.drop (pre.length + 1) =
          pre ++ post := by
        rw [hdoc]
        exact take_drop_split pre post p
      cases hr : env.readErr with
      | some msg => simp [doDestroy, lockjsonRead, hr]
      | none =>
        cases hl : w.locked with
        | true => simp [doDestroy, lockjsonRead, transactionCreate, hr, hf, hl]
        | false =>
          cases hw : env.writeErr { w.disk with profiles := pre ++ post } with
          | some msg =>
            left
            simp [doDestroy, lockjsonRead, transactionCreate, lockjsonWrite, transactionRemove,
              hr, hf, hl, hw, htake]
          | none =>
            right
            refine ⟨name, rest, pre, p, post, rfl, hdoc, hp, hpre, ?_⟩
            simp [doDestroy, lockjsonRead, transactionCreate, lockjsonWrite, transactionRemove,
              hr, hf, hl, hw, htake]

theorem transactProfile_disk {σ : Type} (env : Env R) (name : String)
    (modifyProfile : lockjson.Profile → σ → World R → lockjson.Profile × σ × World R)
    (hframe : ∀ p c w, (modifyProfile p c w).2.2.trace = w.trace ∧
      (modifyProfile p c w).2.2.locked = w.locked ∧ (modifyProfile p c w).2.2.disk = w.disk)
    (c : σ) (w : World R) :
    (transactProfile env name modifyProfile c w).2.2.disk = w.disk ∨
    ∃ pre p post, w.disk.profiles = pre ++ p :: post ∧ p.name = name ∧
      (∀ q ∈ pre, q.name ≠ name) ∧
      (transactProfile env name modifyProfile c w).2.2.disk =
        { w.disk with profiles := pre ++ (modifyProfile p c (afterAcquire w)).1 :: post } := by
  cases hr : env.readErr with
  | some msg => simp [transactProfile, lockjsonRead, hr]
  | none =>
    cases hf : findProfile name w.disk.profiles with
    | none => simp [transactProfile, lockjsonRead, hr, hf]
    | some found =>
      obtain ⟨i, p⟩ := found
      obtain ⟨pre, post, hdoc, hlen, hp, hpre⟩ :=
        findProfile_eq_some name w.disk.profiles i p hf
      cases hl : w.locked with
      | true => simp [transactProfile, lockjsonRead, transactionCreate, hr, hf, hl]
      | false =>
        rw [transactProfile_found env name modifyProfile c w pre post p hdoc hp hpre hr hl]
        have h1 := (hframe p c (afterAcquire w)).2.2
        cases hw : env.writeErr { w.disk with profiles := pre ++ (modifyProfile p c (afterAcquire w)).1 :: post } with
        | some msg =>
          left
          simp only [lockjsonWrite, hw, transactionRemove]
          exact h1
        | none =>
          right
          exact ⟨pre, p, post, hdoc, hp, hpre, by simp only [lockjsonWrite, hw, transactionRemove]⟩

theorem doAdd_disk (env : Env R) (args : List String) (w : World R) :
    (doAdd env args w).2.disk = w.disk ∨
    ∃ pre p post ns, w.disk.profiles = pre ++ p :: post ∧
      (doAdd env args w).2.disk =
        withReposPath w.disk pre p post (p.reposPath ++ addedSpec p.reposPath ns) := by
  unfold doAdd
  generalize hp : parseAddArgs env "add" args w = parsed
  obtain ⟨name, ns, err, w1⟩ := parsed
  have hpf := parseAddArgs_frame env "add" args w
  rw [hp] at hpf
  simp only at hpf
  have ht := transactProfile_disk env name (doAddModify ns) (doAddModify_frame ns) [] w1
  rw [hpf.2.2] at ht
  dsimp only
  generalize transactProfile env name (doAddModify ns) [] w1 = res at ht ⊢
  obtain ⟨_ | e, added, w2⟩ := res
  · rcases ht with ht | ⟨pre, p, post, hdoc, -, -, ht⟩
    · left
      simpa [printEach_frame] using ht
    · right
      refine ⟨pre, p, post, ns, hdoc, ?_⟩
      simpa [printEach_frame, doAddModify_spec, withReposPath] using ht
  · rcases ht with ht | ⟨pre, p, post, hdoc, -, -, ht⟩
    · left
      simpa using ht
    · right
      refine ⟨pre, p, post, ns, hdoc, ?_⟩
      simpa [doAddModify_spec, withReposPath] using ht

theorem doRm_disk (env : Env R) (args : List String) (w : World R) :
    (doRm env args w).2.disk = w.disk ∨
    ∃ pre p post ns, w.disk.profiles = pre ++ p :: post ∧
      (doRm env args w).2.disk = withReposPath w.disk pre p post (rmSpec p.reposPath ns) := by
  unfold doRm
  generalize hp : parseAddArgs env "rm" args w = parsed
  obtain ⟨name, ns, err, w1⟩ := parsed
  have hpf := parseAddArgs_frame env "rm" args w
  rw [hp] at hpf
  simp only at hpf
  have ht := transactProfile_disk env name (doRmModify ns) (doRmModify_frame ns) [] w1
  rw [hpf.2.2] at ht
  dsimp only
  generalize transactProfile env name (doRmModify ns) [] w1 = res at ht ⊢
  obtain ⟨_ | e, removed, w2⟩ := res
  · rcases ht with ht | ⟨pre, p, post, hdoc, -, -, ht⟩
    · left
      simpa [printEach_frame] using ht
    · right
      refine ⟨pre, p, post, ns, hdoc, ?_⟩
      simpa [printEach_frame, doRmModify_spec, withReposPath] using ht
  · rcases ht with ht | ⟨pre, p, post, hdoc, -, -, ht⟩
    · left
      simpa using ht
    · right
      refine ⟨pre, p, post, ns, hdoc, ?_⟩
      simpa [doRmModify_spec, withReposPath] using ht

/-! ## C11: `activeProfile` keeps naming a profile -/

theorem activeExists_withReposPath (doc : lockjson.LockJSON R)
    (pre post : List lockjson.Profile) (p : lockjson.Profile) (l : List String)
    (hdoc : doc.profiles = pre ++ p :: post) (h : ActiveExists doc) :
    ActiveExists (withReposPath doc pre p post l) := by
  obtain ⟨q, hq, hname⟩ := h
  rw [hdoc] at hq
  simp only [ActiveExists, withReposPath]
  rcases List.mem_append.mp hq with hq | hq
  · exact ⟨q, by simp [hq], hname⟩
  · rcases List.mem_cons.mp hq with rfl | hq
    · exact ⟨{ q with reposPath := l }, by simp, hname⟩
    · exact ⟨q, by simp [hq], hname⟩

/-- C11.  If `activeProfile` is the name of some entry of `profiles` in the
persisted document, it still is in the document persisted after `get`, `set`,
`show`, `new`, `add` or `rm`, and after `destroy name` with `name` different
from `activeProfile`, for all arguments, every guard state and every outcome
of the read and of the write. -/
theorem activeProfile_invariant (env : Env R) (subCmd : String)
    (fn : List String → World R → Option Error × World R)
    (hfn : profileSubCmd env subCmd = some fn) (args : List String) (w : World R)
    (hinv : ActiveExists w.disk)
    (hdestroy : subCmd = "destroy" →
      ∀ name rest, args = name :: rest → name ≠ w.disk.activeProfile) :
    ActiveExists (fn args w).2.disk := by
  unfold profileSubCmd at hfn
  split_ifs at hfn with h1 h2 h3 h4 h5 h6 h7 <;> cases hfn
  · rw [doGet_disk]
    exact hinv
  · rcases doSet_disk env args w with h | ⟨name, rest, -, hex, h⟩
    · rw [h]
      exact hinv
    · rw [h]
      exact hex
  · rw [doShow_disk]
    exact hinv
  · rcases doNew_disk env args w with h | ⟨name, rest, -, -, h⟩
    · rw [h]
      exact hinv
    · rw [h]
      obtain ⟨q, hq, hname⟩ := hinv
      exact ⟨q, by simp [hq], hname⟩
  · rcases doDestroy_disk env args w with h | ⟨name, rest, pre, p, post, hargs, hdoc, hp, -, h⟩
    · rw [h]
      exact hinv
    · rw [h]
      have hne := hdestroy h5 name rest hargs
      obtain ⟨q, hq, hname⟩ := hinv
      rw [hdoc] at hq
      rcases List.mem_append.mp hq with hq | hq
      · exact ⟨q, by simp [hq], hname⟩
      · rcases List.mem_cons.mp hq with rfl | hq
        · exact absurd (hp.symm.trans hname) hne
        · exact ⟨q, by simp [hq], hname⟩
  · rcases doAdd_disk env args w with h | ⟨pre, p, post, ns, hdoc, h⟩
    · rw [h]
      exact hinv
    · rw [h]
      exact activeExists_withReposPath w.disk pre post p _ hdoc hinv
  · rcases doRm_disk env args w with h | ⟨pre, p, post, ns, hdoc, h⟩
    · rw [h]
      exact hinv
    · rw [h]
      exact activeExists_withReposPath w.disk pre post p _ hdoc hinv

/-- Witness of `activeProfile_invariant`: `destroy work` after `new work` on
the demo world, whose active profile is `default`. -/
theorem activeProfile_invariant_witness :
    profileSubCmd demoEnv "destroy" = some (doDestroy demoEnv) ∧
    ActiveExists (doNew demoEnv ["work"] demoWorld).2.disk ∧
    ActiveExists (doDestroy demoEnv ["work"] (doNew demoEnv ["work"] demoWorld).2).2.disk :=
  have hinv : ActiveExists (doNew demoEnv ["work"] demoWorld).2.disk :=
    ⟨{ name := "default", reposPath := ["a"], loadInit := true }, by decide, rfl⟩
  ⟨rfl, hinv,
    activeProfile_invariant demoEnv "destroy" (doDestroy demoEnv) rfl ["work"]
      (doNew demoEnv ["work"] demoWorld).2 hinv
      (fun _ name rest hargs => by
        simp only [List.cons.injEq] at hargs
        rw [← hargs.1]
        decide)⟩

/-! ## C18: no repository twice in a `reposPath` -/

theorem nodup_append_addedSpec (old ns : List String) (h : old.Nodup) :
    (old ++ addedSpec old ns).Nodup := by
  rw [List.nodup_append]
  refine ⟨h, (addedSpec_characterization old ns).1, ?_⟩
  intro x hx hx1
  exact ((mem_addedSpec x old ns).mp hx1).2 hx

theorem reposNodup_withReposPath (doc : lockjson.LockJSON R)
    (pre post : List lockjson.Profile) (p : lockjson.Profile) (l : List String)
    (hdoc : doc.profiles = pre ++ p :: post) (h : ReposNodup doc) (hl : l.Nodup) :
    ReposNodup (withReposPath doc pre p post l) := by
  intro q hq
  simp only [withReposPath, List.mem_append, List.mem_cons] at hq
  rcases hq with hq | rfl | hq
  · exact h q (by simp [hdoc, hq])
  · exact hl
  · exact h q (by simp [hdoc, hq])

/-- C18.  If no profile of the persisted document lists an identifier twice,
the same holds for the document persisted after any `get`, `set`, `show`,
`new`, `destroy`, `rm` and `add`, for all arguments (also a batch that names
an identifier several times or names identifiers already present), every
guard state and every outcome of the read and of the write. -/
theorem reposPath_nodup_invariant (env : Env R) (subCmd : String)
    (fn : List String → World R → Option Error × World R)
    (hfn : profileSubCmd env subCmd = some fn) (args : List String) (w : World R)
    (hinv : ReposNodup w.disk) :
    ReposNodup (fn args w).2.disk := by
  unfold profileSubCmd at hfn
  split_ifs at hfn <;> cases hfn
  · rw [doGet_disk]
    exact hinv
  · rcases doSet_disk env args w with h | ⟨name, rest, -, -, h⟩
    · rw [h]
      exact hinv
    · rw [h]
      exact hinv
  · rw [doShow_disk]
    exact hinv
  · rcases doNew_disk env args w with h | ⟨name, rest, -, -, h⟩
    · rw [h]
      exact hinv
    · rw [h]
      intro q hq
      simp only [List.mem_append, List.mem_singleton] at hq
      rcases hq with hq | rfl
      · exact hinv q hq
      · exact List.nodup_nil
  · rcases doDestroy_disk env args w with h | ⟨name, rest, pre, p, post, -, hdoc, -, -, h⟩
    · rw [h]
      exact hinv
    · rw [h]
      intro q hq
      simp only [List.mem_append] at hq
      exact hinv q (by
        rw [hdoc]
        rcases hq with hq | hq
        · simp [hq]
        · simp [hq])
  · rcases doAdd_disk env args w with h | ⟨pre, p, post, ns, hdoc, h⟩
    · rw [h]
      exact hinv
    · rw [h]
      exact reposNodup_withReposPath w.disk pre post p _ hdoc hinv
        (nodup_append_addedSpec _ ns (hinv p (by simp [hdoc])))
  · rcases doRm_disk env args w with h | ⟨pre, p, post, ns, hdoc, h⟩
    · rw [h]
      exact hinv
    · rw [h]
      exact reposNodup_withReposPath w.disk pre post p _ hdoc hinv
        ((rmSpec_sublist p.reposPath ns).nodup (hinv p (by simp [hdoc])))

/-- Witness of `reposPath_nodup_invariant`: `add default a b b` on the demo
world, a batch with a repeated and an already present identifier. -/
theorem reposPath_nodup_invariant_witness :
    profileSubCmd demoEnv "add" = some (doAdd demoEnv) ∧ ReposNodup demoWorld.disk ∧
    ReposNodup (doAdd demoEnv ["default", "a", "b", "b"] demoWorld).2.disk :=
  have hinv : ReposNodup demoWorld.disk := by
    intro p hp
    simp only [demoWorld, demoDoc, List.mem_singleton] at hp
    subst hp
    decide
  ⟨rfl, hinv,
    reposPath_nodup_invariant demoEnv "add" (doAdd demoEnv) rfl ["default", "a", "b", "b"]
      demoWorld hinv⟩

/-! ## C12: one write for the whole batch -/

theorem doAdd_outcome (env : Env R) (w : World R) (name : String) (raws ns : List String)
    (pre post : List lockjson.Profile) (p : lockjson.Profile)
    (hdoc : w.disk.profiles = pre ++ p :: post) (hp : p.name = name)
    (hpre : ∀ q ∈ pre, q.name ≠ name) (hn : Normalizes env raws ns)
    (hread : env.readErr = none) (hfree : w.locked = false) :
    (doAdd env (name :: raws) w).1 =
      (env.writeErr (withReposPath w.disk pre p post
        (p.reposPath ++ addedSpec p.reposPath ns))).map Error.lockjson ∧
    (doAdd env (name :: raws) w).2.trace = w.trace ++ [.read, .create true,
      .write (withReposPath w.disk pre p post (p.reposPath ++ addedSpec p.reposPath ns))
        (env.writeErr (withReposPath w.disk pre p post
          (p.reposPath ++ addedSpec p.reposPath ns))).isNone, .remove] ∧
    (doAdd env (name :: raws) w).2.locked = false := by
  have hnorm := normalizeAll_ok env raws ns [] hn
  simp only [List.nil_append] at hnorm
  simp only [doAdd, parseAddArgs, hnorm,
    transactProfile_found env name _ [] w pre post p hdoc hp hpre hread hfree,
    doAddModify_spec, lockjsonWrite, withReposPath]
  cases hw : env.writeErr { w.disk with profiles := pre ++ { p with reposPath := p.reposPath ++ addedSpec p.reposPath ns } :: post } <;>
  simp [transactionRemove, printEach_frame, afterAcquire]

theorem doRm_outcome (env : Env R) (w : World R) (name : String) (raws ns : List String)
    (pre post : List lockjson.Profile) (p : lockjson.Profile)
    (hdoc : w.disk.profiles = pre ++ p :: post) (hp : p.name = name)
    (hpre : ∀ q ∈ pre, q.name ≠ name) (hn : Normalizes env raws ns)
    (hread : env.readErr = none) (hfree : w.locked = false) :
    (doRm env (name :: raws) w).1 =
      (env.writeErr (withReposPath w.disk pre p post
        (rmSpec p.reposPath ns))).map Error.lockjson ∧
    (doRm env (name :: raws) w).2.trace = w.trace ++ [.read, .create true,
      .write (withReposPath w.disk pre p post (rmSpec p.reposPath ns))
        (env.writeErr (withReposPath w.disk pre p post (rmSpec p.reposPath ns))).isNone,
      .remove] ∧
    (doRm env (name :: raws) w).2.locked = false := by
  have hnorm := normalizeAll_ok env raws ns [] hn
  simp only [List.nil_append] at hnorm
  simp only [doRm, parseAddArgs, hnorm,
    transactProfile_found env name _ [] w pre post p hdoc hp hpre hread hfree,
    doRmModify_spec, lockjsonWrite, withReposPath]
  cases hw : env.writeErr { w.disk with profiles := pre ++ { p with reposPath := rmSpec p.reposPath ns } :: post } <;>
  simp [transactionRemove, printEach_frame, afterAcquire]

/-- C12.  On a document that has a profile named `name`, with the guard free,
the read succeeding and all repositories of the batch normalizing (to `ns`),
`add` and `rm` never stop at a duplicate or missing item: whatever the batch
(also an empty one, or one made of duplicates or of missing identifiers only)
they call `lockjson.Write` exactly once, under the guard, with the document
that holds the effect of the whole batch (`old ++ addedSpec old ns`, which
contains every identifier of the batch, respectively `rmSpec old ns`), and
they return exactly what that write returns, be it an error or none. -/
theorem batch_single_write (env : Env R) (w : World R) (name : String) (raws ns : List String)
    (hex : ∃ p ∈ w.disk.profiles, p.name = name) (hn : Normalizes env raws ns)
    (hread : env.readErr = none) (hfree : w.locked = false) :
    ∃ pre p post, w.disk.profiles = pre ++ p :: post ∧ p.name = name ∧
      (∀ q ∈ pre, q.name ≠ name) ∧
      (∀ n ∈ ns, n ∈ p.reposPath ++ addedSpec p.reposPath ns) ∧
      (doAdd env (name :: raws) w).1 =
        (env.writeErr (withReposPath w.disk pre p post
          (p.reposPath ++ addedSpec p.reposPath ns))).map Error.lockjson ∧
      calls w (doAdd env (name :: raws) w).2 = [.read, .create true,
        .write (withReposPath w.disk pre p post (p.reposPath ++ addedSpec p.reposPath ns))
          (env.writeErr (withReposPath w.disk pre p post
            (p.reposPath ++ addedSpec p.reposPath ns))).isNone, .remove] ∧
      ((calls w (doAdd env (name :: raws) w).2).filter Event.isWrite).length = 1 ∧
      (doRm env (name :: raws) w).1 =
        (env.writeErr (withReposPath w.disk pre p post
          (rmSpec p.reposPath ns))).map Error.lockjson ∧
      calls w (doRm env (name :: raws) w).2 = [.read, .create true,
        .write (withReposPath w.disk pre p post (rmSpec p.reposPath ns))
          (env.writeErr (withReposPath w.disk pre p post (rmSpec p.reposPath ns))).isNone,
        .remove] ∧
      ((calls w (doRm env (name :: raws) w).2).filter Event.isWrite).length = 1 := by
  obtain ⟨pre, p, post, hdoc, hp, hpre⟩ := exists_first_profile name w.disk.profiles hex
  obtain ⟨ha1, ha2, -⟩ := doAdd_outcome env w name raws ns pre post p hdoc hp hpre hn hread hfree
  obtain ⟨hr1, hr2, -⟩ := doRm_outcome env w name raws ns pre post p hdoc hp hpre hn hread hfree
  refine ⟨pre, p, post, hdoc, hp, hpre, ?_, ha1, ?_, ?_, hr1, ?_, ?_⟩
  · intro n hn1
    by_cases hmem : n ∈ p.reposPath
    · simp [hmem]
    · exact List.mem_append_right _ ((mem_addedSpec n p.reposPath ns).mpr ⟨hn1, hmem⟩)
  · simp [calls, ha2]
  · simp [calls, ha2, Event.isWrite]
  · simp [calls, hr2]
  · simp [calls, hr2, Event.isWrite]

/-- Witness of `batch_single_write`: the empty batch `add default` on the
demo world still makes its one write. -/
theorem batch_single_write_witness :
    (∃ p ∈ demoWorld.disk.profiles, p.name = "default") ∧ Normalizes demoEnv [] [] ∧
    demoEnv.readErr = none ∧ demoWorld.locked = false ∧
    ∃ pre p post, demoWorld.disk.profiles = pre ++ p :: post ∧
      ((calls demoWorld (doAdd demoEnv ["default"] demoWorld).2).filter
        Event.isWrite).length = 1 ∧
      ((calls demoWorld (doRm demoEnv ["default"] demoWorld).2).filter
        Event.isWrite).length = 1 :=
  have hex : ∃ p ∈ demoWorld.disk.profiles, p.name = "default" :=
    ⟨{ name := "default", reposPath := ["a"], loadInit := true }, by decide, rfl⟩
  have h := batch_single_write demoEnv demoWorld "default" [] [] hex .nil rfl rfl
  ⟨hex, .nil, rfl, rfl,
    h.elim fun pre h => h.elim fun p h => h.elim fun post h =>
      ⟨pre, p, post, h.1, h.2.2.2.2.2.2.1, h.2.2.2.2.2.2.2.2.2⟩⟩

/-! ## C13: `new` -/

/-- C13.  The read succeeding: `new name` returns the AlreadyExists error
if and only if some entry of `profiles` is named `name`, and then it has only
read (no `Create`, no write; document and marker untouched); when no entry
bears the name, the guard is free and the write succeeds, it returns no error
and writes once, under the guard, the original document with
`Profile{name, [], true}` appended at the end of `profiles`. -/
theorem doNew_contract (env : Env R) (w : World R) (name : String) (rest : List String)
    (hread : env.readErr = none) :
    ((doNew env (name :: rest) w).1 = some (alreadyExists name) ↔
      ∃ p ∈ w.disk.profiles, p.name = name) ∧
    ((∃ p ∈ w.disk.profiles, p.name = name) →
      calls w (doNew env (name :: rest) w).2 = [.read] ∧
      (doNew env (name :: rest) w).2.disk = w.disk ∧
      (doNew env (name :: rest) w).2.locked = w.locked) ∧
    ((∀ p ∈ w.disk.profiles, p.name ≠ name) → w.locked = false →
      (∀ d, env.writeErr d = none) →
      doNew env (name :: rest) w =
        (none,
          { disk := { w.disk with profiles := w.disk.profiles ++
                [{ name := name, reposPath := [], loadInit := true }] }
            locked := false
            trace := w.trace ++ [.read, .create true,
              .write { w.disk with profiles := w.disk.profiles ++
                [{ name := name, reposPath := [], loadInit := true }] } true, .remove]
            stdout := w.stdout ++ ["[INFO] Created new profile '" ++ name ++ "'"] })) := by
  refine ⟨?_, ?_, fun habs hfree hwrite => doNew_eq env w name rest habs hread hfree hwrite⟩
  · cases hf : findProfile name w.disk.profiles with
    | some found =>
      have hex := (findProfile_isSome_iff name w.disk.profiles).mp ⟨found, hf⟩
      simp [doNew, lockjsonRead, hread, hf, alreadyExists, hex]
    | none =>
      have habs := (findProfile_eq_none_iff name w.disk.profiles).mp hf
      have hnex : ¬ ∃ p ∈ w.disk.profiles, p.name = name := fun ⟨p, hp, hn⟩ => habs p hp hn
      cases hl : w.locked <;>
      cases hw : env.writeErr { w.disk with profiles := w.disk.profiles ++ [{ name := name, reposPath := [], loadInit := true }] } <;>
      simp [doNew, lockjsonRead, transactionCreate, lockjsonWrite, transactionRemove,
        hread, hf, hl, hw, alreadyExists, hnex]
  · intro hex
    obtain ⟨found, hf⟩ := (findProfile_isSome_iff name w.disk.profiles).mpr hex
    simp [doNew, lockjsonRead, hread, hf, calls]

/-- Witness of `doNew_contract`: `new default` on the demo world. -/
theorem doNew_contract_witness :
    demoEnv.readErr = none ∧
    (doNew demoEnv ["default"] demoWorld).1 = some (alreadyExists "default") :=
  ⟨rfl, (doNew_contract demoEnv demoWorld "default" [] rfl).1.mpr
    ⟨{ name := "default", reposPath := ["a"], loadInit := true }, by decide, rfl⟩⟩

/-! ## C14: `destroy` -/

/-- C14.  The read succeeding: `destroy name` returns the NotFound error if
and only if no entry of `profiles` is named `name`, and then it has only read
(no `Create`, no write; document and marker untouched); when `p` is the first
entry named `name`, the guard is free and the write succeeds, it returns no
error and writes once, under the guard, the original document without `p`:
one entry less, the others unchanged and in order, `activeProfile`
unchanged.  This also holds when `name` is the active profile: `destroy` is
not rejected and `activeProfile` keeps the name of the removed entry; it is
then left dangling, naming a profile only in the case that a later entry
bears the same name. -/
theorem doDestroy_contract (env : Env R) (w : World R) (name : String) (rest : List String)
    (hread : env.readErr = none) :
    ((doDestroy env (name :: rest) w).1 = some (notFound name) ↔
      ∀ p ∈ w.disk.profiles, p.name ≠ name) ∧
    ((∀ p ∈ w.disk.profiles, p.name ≠ name) →
      calls w (doDestroy env (name :: rest) w).2 = [.read] ∧
      (doDestroy env (name :: rest) w).2.disk = w.disk ∧
      (doDestroy env (name :: rest) w).2.locked = w.locked) ∧
    (∀ pre p post, w.disk.profiles = pre ++ p :: post → p.name = name →
      (∀ q ∈ pre, q.name ≠ name) → w.locked = false → (∀ d, env.writeErr d = none) →
      doDestroy env (name :: rest) w =
        (none,
          { disk := { w.disk with profiles := pre ++ post }
            locked := false
            trace := w.trace ++ [.read, .create true,
              .write { w.disk with profiles := pre ++ post } true, .remove]
            stdout := w.stdout ++ ["[INFO] Deleted profile '" ++ name ++ "'"] }) ∧
      (pre ++ post).length + 1 = w.disk.profiles.length ∧
      (doDestroy env (name :: rest) w).2.disk.activeProfile = w.disk.activeProfile ∧
      (w.disk.activeProfile = name →
        (ActiveExists (doDestroy env (name :: rest) w).2.disk ↔
          ∃ q ∈ post, q.name = name))) := by
  refine ⟨?_, ?_, ?_⟩
  · cases hf : findProfile name w.disk.profiles with
    | none =>
      have habs := (findProfile_eq_none_iff name w.disk.profiles).mp hf
      simp only [doDestroy, lockjsonRead, hread, hf, notFound, true_iff]
      exact habs
    | some found =>
      obtain ⟨q, hq, hname⟩ := (findProfile_isSome_iff name w.disk.profiles).mp ⟨found, hf⟩
      have hnabs : ¬ ∀ p ∈ w.disk.profiles, p.name ≠ name := fun h => h q hq hname
      cases hl : w.locked <;>
      cases hw : env.writeErr { w.disk with profiles := w.disk.profiles.take found.1 ++ w.disk.profiles.drop (found.1 + 1) } <;>
      simp [doDestroy, lockjsonRead, transactionCreate, lockjsonWrite, transactionRemove,
        hread, hf, hl, hw, notFound, hnabs]
  · intro habs
    have hf := (findProfile_eq_none_iff name w.disk.profiles).mpr habs
    simp [doDestroy, lockjsonRead, hread, hf, calls]
  · intro pre p post hdoc hp hpre hfree hwrite
    have heq := doDestroy_eq env w name rest pre post p hdoc hp hpre hread hfree hwrite
    rw [heq]
    refine ⟨rfl, by simp [hdoc]; omega, rfl, ?_⟩
    intro hact
    constructor
    · rintro ⟨q, hq, hname⟩
      simp only [List.mem_append] at hq
      simp only at hname
      rw [hact] at hname
      rcases hq with hq | hq
      · exact absurd hname (hpre q hq)
      · exact ⟨q, hq, hname⟩
    · rintro ⟨q, hq, hname⟩
      exact ⟨q, List.mem_append_right _ hq, hname.trans hact.symm⟩

/-- Witness of `doDestroy_contract`: `destroy default`, the active and only
profile of the demo world. -/
theorem doDestroy_contract_witness :
    demoEnv.readErr = none ∧
    demoWorld.disk.profiles =
      [] ++ { name := "default", reposPath := ["a"], loadInit := true } :: [] ∧
    demoWorld.disk.activeProfile = "default" ∧
    (doDestroy demoEnv ["default"] demoWorld).1 = none ∧
    ¬ ActiveExists (doDestroy demoEnv ["default"] demoWorld).2.disk :=
  have h := (doDestroy_contract demoEnv demoWorld "default" [] rfl).2.2 []
    { name := "default", reposPath := ["a"], loadInit := true } [] rfl rfl (by simp) rfl
    (fun _ => rfl)
  ⟨rfl, rfl, rfl, congrArg Prod.fst h.1, fun hact => by
    obtain ⟨q, hq, -⟩ := (h.2.2.2 rfl).mp hact
    simp at hq⟩

/-! ## C15: `set` -/

theorem doSet_eq (env : Env R) (w : World R) (name : String) (rest : List String)
    (hex : ∃ p ∈ w.disk.profiles, p.name = name) (hne : w.disk.activeProfile ≠ name)
    (hread : env.readErr = none) (hfree : w.locked = false)
    (hwrite : ∀ d, env.writeErr d = none) :
    doSet env (name :: rest) w =
      (none,
        { disk := { w.disk with activeProfile := name }
          locked := false
          trace := w.trace ++ [.read, .create true,
            .write { w.disk with activeProfile := name } true, .remove]
          stdout := w.stdout ++ ["[INFO] Set active profile to '" ++ name ++ "'"] }) := by
  obtain ⟨found, hf⟩ := (findProfile_isSome_iff name w.disk.profiles).mpr hex
  simp [doSet, lockjsonRead, transactionCreate, lockjsonWrite, transactionRemove, println,
    hread, hfree, hf, hwrite, hne]

/-- C15.  The read succeeding, for every name of an existing profile: when
the name equals `activeProfile`, `set name` returns no error after the read
alone (no `Create`, no write), whatever the guard state; otherwise, with the
guard free and the write succeeding, it returns no error and writes exactly
once, under the guard, the original document with `activeProfile = name`,
`profiles` and every other field unchanged. -/
theorem doSet_contract (env : Env R) (w : World R) (name : String) (rest : List String)
    (hex : ∃ p ∈ w.disk.profiles, p.name = name) (hread : env.readErr = none) :
    (w.disk.activeProfile = name →
      (doSet env (name :: rest) w).1 = none ∧
      calls w (doSet env (name :: rest) w).2 = [.read] ∧
      (doSet env (name :: rest) w).2.disk = w.disk ∧
      (doSet env (name :: rest) w).2.locked = w.locked) ∧
    (w.disk.activeProfile ≠ name → w.locked = false → (∀ d, env.writeErr d = none) →
      doSet env (name :: rest) w =
        (none,
          { disk := { w.disk with activeProfile := name }
            locked := false
            trace := w.trace ++ [.read, .create true,
              .write { w.disk with activeProfile := name } true, .remove]
            stdout := w.stdout ++ ["[INFO] Set active profile to '" ++ name ++ "'"] }) ∧
      ((calls w (doSet env (name :: rest) w).2).filter Event.isWrite).length = 1) := by
  refine ⟨?_, ?_⟩
  · intro hact
    simp [doSet, lockjsonRead, hread, hact, calls]
  · intro hne hfree hwrite
    have heq := doSet_eq env w name rest hex hne hread hfree hwrite
    rw [heq]
    exact ⟨rfl, by simp [calls, Event.isWrite]⟩

/-- Witness of `doSet_contract`: `set default`, the active profile of the
demo world. -/
theorem doSet_contract_witness :
    (∃ p ∈ demoWorld.disk.profiles, p.name = "default") ∧ demoEnv.readErr = none ∧
    demoWorld.disk.activeProfile = "default" ∧
    (doSet demoEnv ["default"] demoWorld).1 = none :=
  have hex : ∃ p ∈ demoWorld.disk.profiles, p.name = "default" :=
    ⟨{ name := "default", reposPath := ["a"], loadInit := true }, by decide, rfl⟩
  ⟨hex, rfl, rfl, ((doSet_contract demoEnv demoWorld "default" [] hex rfl).1 rfl).1⟩

/-! ## C16: the exit code of `Profile` -/

theorem flagParse_positional (args : List String) (w : World R) (h : Positional args) :
    flagParse args w = (args, false, w) := by
  cases args with
  | nil => rfl
  | cons s rest =>
    have hs := h s rest rfl
    unfold looksLikeFlag at hs
    simp only [flagParse]
    generalize s.toList = l at hs ⊢
    split
    · simp at hs
    · simp at hs
    · rfl

theorem profileSubCmd_isSome_iff (env : Env R) (s : String) :
    (∃ fn, profileSubCmd env s = some fn) ↔ s ∈ subCmdNames := by
  unfold profileSubCmd subCmdNames
  split_ifs with h1 h2 h3 h4 h5 h6 h7
  · exact ⟨fun _ => by simp [h1], fun _ => ⟨_, rfl⟩⟩
  · exact ⟨fun _ => by simp [h2], fun _ => ⟨_, rfl⟩⟩
  · exact ⟨fun _ => by simp [h3], fun _ => ⟨_, rfl⟩⟩
  · exact ⟨fun _ => by simp [h4], fun _ => ⟨_, rfl⟩⟩
  · exact ⟨fun _ => by simp [h5], fun _ => ⟨_, rfl⟩⟩
  · exact ⟨fun _ => by simp [h6], fun _ => ⟨_, rfl⟩⟩
  · exact ⟨fun _ => by simp [h7], fun _ => ⟨_, rfl⟩⟩
  · constructor
    · rintro ⟨fn, h⟩
      cases h
    · intro h
      simp only [List.mem_cons, List.mem_singleton, List.not_mem_nil, or_false] at h
      rcases h with h | h | h | h | h | h | h
      · exact absurd h h1
      · exact absurd h h2
      · exact absurd h h3
      · exact absurd h h4
      · exact absurd h h5
      · exact absurd h h6
      · exact absurd h h7

theorem profileSubCmd_eq_none_iff (env : Env R) (s : String) :
    profileSubCmd env s = none ↔ s ∉ subCmdNames := by
  rw [← profileSubCmd_isSome_iff env s]
  cases profileSubCmd env s with
  | none =>
    constructor
    · rintro - ⟨fn, hfn⟩
      cases hfn
    · intro _
      rfl
  | some fn =>
    constructor
    · intro h
      cases h
    · intro h
      exact absurd ⟨fn, rfl⟩ h

theorem Profile_positional_cons (env : Env R) (s : String) (rest : List String) (w : World R)
    (h : Positional (s :: rest)) :
    Profile env (s :: rest) w =
      match profileSubCmd env s with
      | none => some (10, println ("unknown subcommand: " ++ s) w)
      | some fn => dispatchResult (fn rest w) := by
  simp only [Profile, parseArgs, flagParse_positional (s :: rest) w h]
  cases hfn : profileSubCmd env s with
  | none => simp [Error.message]
  | some fn =>
    simp only [hfn, Bool.false_eq_true, if_false, dispatchResult]

/-- C16.  For every positional argument list `args`: `Profile` returns 10
if and only if the list is non-empty and its first element is not one of
`get`, `set`, `show`, `new`, `destroy`, `add`, `rm`; the empty list is
dispatched to `doGet` with no arguments; a list that starts with a subcommand
name is dispatched to the handler the table holds for that name, with the
remaining arguments; and the exit code is then 11 if the handler returns an
error and 0 if it returns none.  `Profile` never panics on such a list. -/
theorem Profile_exit_code (env : Env R) (args : List String) (w : World R)
    (hpos : Positional args) :
    ((Profile env args w).map Prod.fst = some 10 ↔
      ∃ s rest, args = s :: rest ∧ s ∉ subCmdNames) ∧
    (args = [] → Profile env args w = dispatchResult (doGet env [] w)) ∧
    (∀ s rest, args = s :: rest → s ∈ subCmdNames →
      ∃ fn, profileSubCmd env s = some fn ∧
        Profile env args w = dispatchResult (fn rest w)) ∧
    (∀ r : Option Error × World R,
      (dispatchResult r).map Prod.fst = some (if r.1 = none then 0 else 11)) ∧
    (profileSubCmd env "get" = some (doGet env) ∧
      profileSubCmd env "set" = some (doSet env) ∧
      profileSubCmd env "show" = some (doShow env) ∧
      profileSubCmd env "new" = some (doNew env) ∧
      profileSubCmd env "destroy" = some (doDestroy env) ∧
      profileSubCmd env "add" = some (doAdd env) ∧
      profileSubCmd env "rm" = some (doRm env)) ∧
    (∃ r, Profile env args w = some r) := by
  have hdisp : ∀ r : Option Error × World R,
      (dispatchResult r).map Prod.fst = some (if r.1 = none then 0 else 11) := by
    rintro ⟨_ | e, w2⟩ <;> simp [dispatchResult]
  have hget : Profile env [] w = dispatchResult (doGet env [] w) := by
    simp only [Profile, parseArgs, flagParse, Bool.false_eq_true, if_false, dispatchResult]
    have : profileSubCmd env "get" = some (doGet env) := rfl
    simp only [this]
  refine ⟨?_, ?_, ?_, hdisp, ⟨rfl, rfl, rfl, rfl, rfl, rfl, rfl⟩, ?_⟩
  · cases args with
    | nil =>
      rw [hget, hdisp]
      constructor
      · intro h
        split_ifs at h <;> simp at h
      · rintro ⟨s, rest, h, -⟩
        simp at h
    | cons s rest =>
      rw [Profile_positional_cons env s rest w hpos]
      cases hfn : profileSubCmd env s with
      | none =>
        have hs := (profileSubCmd_eq_none_iff env s).mp hfn
        simp only [Option.map_some', true_iff]
        exact ⟨s, rest, rfl, hs⟩
      | some fn =>
        have hs := (profileSubCmd_isSome_iff env s).mp ⟨fn, hfn⟩
        simp only [hdisp]
        constructor
        · intro h
          split_ifs at h <;> simp at h
        · rintro ⟨s1, rest1, h, hs1⟩
          simp only [List.cons.injEq] at h
          rw [← h.1] at hs1
          exact absurd hs hs1
  · rintro rfl
    exact hget
  · rintro s rest rfl hs
    obtain ⟨fn, hfn⟩ := (profileSubCmd_isSome_iff env s).mpr hs
    refine ⟨fn, hfn, ?_⟩
    rw [Profile_positional_cons env s rest w hpos, hfn]
  · have hsome : ∀ r : Option Error × World R, ∃ x, dispatchResult r = some x := by
      rintro ⟨_ | e, w2⟩ <;> exact ⟨_, rfl⟩
    cases args with
    | nil =>
      rw [hget]
      exact hsome _
    | cons s rest =>
      rw [Profile_positional_cons env s rest w hpos]
      cases hfn : profileSubCmd env s with
      | none => exact ⟨_, rfl⟩
      | some fn => exact hsome _

/-- Witness of `Profile_exit_code`: `profile frobnicate` on the demo world. -/
theorem Profile_exit_code_witness :
    Positional ["frobnicate"] ∧
    (Profile demoEnv ["frobnicate"] demoWorld).map Prod.fst = some 10 :=
  have hpos : Positional ["frobnicate"] := by
    intro s rest h
    simp only [List.cons.injEq] at h
    rw [← h.1]
    rfl
  ⟨hpos, (Profile_exit_code demoEnv ["frobnicate"] demoWorld hpos).1.mpr
    ⟨"frobnicate", [], rfl, by decide⟩⟩

/-- With a flag in front, the usage is shown and `Profile` returns 0 without
dispatching, also when a subcommand follows. -/
theorem Profile_flag_shows_usage :
    (Profile demoEnv ["-h"] demoWorld).map (fun r => (r.1, r.2.trace)) = some (0, []) ∧
    (Profile demoEnv ["-x", "destroy", "default"] demoWorld).map
      (fun r => (r.1, r.2.trace, r.2.disk)) = some (0, [], demoDoc) ∧
    (Profile demoEnv ["-x", "frobnicate"] demoWorld).map Prod.fst = some 10 := by
  decide

/-! ## C17: the scenario -/

theorem Profile_dispatch (env : Env R) (s : String) (rest : List String) (w : World R)
    (fn : List String → World R → Option Error × World R) (w1 : World R)
    (hflag : looksLikeFlag s = false) (hfn : profileSubCmd env s = some fn)
    (hres : fn rest w = (none, w1)) :
    Profile env (s :: rest) w = some (0, w1) := by
  have hpos : Positional (s :: rest) := by
    intro s1 rest1 h
    simp only [List.cons.injEq] at h
    rw [← h.1]
    exact hflag
  rw [Profile_positional_cons env s rest w hpos, hfn]
  simp only [hres, dispatchResult]

theorem Profile_new_ok (env : Env R) (w : World R) (name : String)
    (habs : ∀ p ∈ w.disk.profiles, p.name ≠ name)
    (hread : env.readErr = none) (hfree : w.locked = false)
    (hwrite : ∀ d, env.writeErr d = none) :
    ∃ w1, Profile env ["new", name] w = some (0, w1) ∧
      w1.disk = { w.disk with profiles := w.disk.profiles ++
        [{ name := name, reposPath := [], loadInit := true }] } ∧
      w1.locked = false :=
  ⟨_, Profile_dispatch env "new" [name] w (doNew env) _ rfl rfl
    (doNew_eq env w name [] habs hread hfree hwrite), rfl, rfl⟩

theorem Profile_add_ok (env : Env R) (w : World R) (name : String) (raws ns : List String)
    (pre post : List lockjson.Profile) (p : lockjson.Profile)
    (hdoc : w.disk.profiles = pre ++ p :: post) (hp : p.name = name)
    (hpre : ∀ q ∈ pre, q.name ≠ name) (hn : Normalizes env raws ns)
    (hread : env.readErr = none) (hfree : w.locked = false)
    (hwrite : ∀ d, env.writeErr d = none) :
    ∃ w1, Profile env ("add" :: name :: raws) w = some (0, w1) ∧
      w1.disk = withReposPath w.disk pre p post (p.reposPath ++ addedSpec p.reposPath ns) ∧
      w1.locked = false :=
  ⟨_, Profile_dispatch env "add" (name :: raws) w (doAdd env) _ rfl rfl
    (doAdd_eq env w name raws ns pre post p hdoc hp hpre hn hread hfree (hwrite _)), rfl, rfl⟩

theorem Profile_set_ok (env : Env R) (w : World R) (name : String)
    (hex : ∃ p ∈ w.disk.profiles, p.name = name) (hne : w.disk.activeProfile ≠ name)
    (hread : env.readErr = none) (hfree : w.locked = false)
    (hwrite : ∀ d, env.writeErr d = none) :
    ∃ w1, Profile env ["set", name] w = some (0, w1) ∧
      w1.disk = { w.disk with activeProfile := name } ∧ w1.locked = false :=
  ⟨_, Profile_dispatch env "set" [name] w (doSet env) _ rfl rfl
    (doSet_eq env w name [] hex hne hread hfree hwrite), rfl, rfl⟩

theorem Profile_destroy_ok (env : Env R) (w : World R) (name : String)
    (pre post : List lockjson.Profile) (p : lockjson.Profile)
    (hdoc : w.disk.profiles = pre ++ p :: post) (hp : p.name = name)
    (hpre : ∀ q ∈ pre, q.name ≠ name)
    (hread : env.readErr = none) (hfree : w.locked = false)
    (hwrite : ∀ d, env.writeErr d = none) :
    ∃ w1, Profile env ["destroy", name] w = some (0, w1) ∧
      w1.disk = { w.disk with profiles := pre ++ post } ∧ w1.locked = false :=
  ⟨_, Profile_dispatch env "destroy" [name] w (doDestroy env) _ rfl rfl
    (doDestroy_eq env w name [] pre post p hdoc hp hpre hread hfree hwrite), rfl, rfl⟩

/-- C17.  The scenario, for every environment in which the read and the
writes succeed and `github.com/a/b` normalizes to itself, and every world
whose document is `profiles = [default]` (empty `reposPath`, `loadInit`
true), `activeProfile = default`, with the guard free: `profile new work`,
`profile add work github.com/a/b`, `profile set work` and
`profile destroy default`, run in sequence, each return exit code 0, and the
persisted document is in turn `[default, work []]` with `default` active,
then `work` holding `github.com/a/b`, then `work` active, and finally
`[work]` with `reposPath = [github.com/a/b]`, `loadInit` true and `work`
active; the rest of the document is untouched and the guard is free at the
end. -/
theorem scenario (env : Env R) (w : World R) (repos : R)
    (hdisk : w.disk =
      { repos := repos, activeProfile := "default", profiles := [scenarioDefault] })
    (hfree : w.locked = false) (hread : env.readErr = none)
    (hwrite : ∀ d, env.writeErr d = none)
    (hnorm : env.normalize "github.com/a/b" = .ok "github.com/a/b") :
    ∃ w1 w2 w3 w4,
      Profile env ["new", "work"] w = some (0, w1) ∧
      w1.disk = { repos := repos, activeProfile := "default",
                  profiles := [scenarioDefault, scenarioWork []] } ∧
      Profile env ["add", "work", "github.com/a/b"] w1 = some (0, w2) ∧
      w2.disk = { repos := repos, activeProfile := "default",
                  profiles := [scenarioDefault, scenarioWork ["github.com/a/b"]] } ∧
      Profile env ["set", "work"] w2 = some (0, w3) ∧
      w3.disk = { repos := repos, activeProfile := "work",
                  profiles := [scenarioDefault, scenarioWork ["github.com/a/b"]] } ∧
      Profile env ["destroy", "default"] w3 = some (0, w4) ∧
      w4.disk = { repos := repos, activeProfile := "work",
                  profiles := [scenarioWork ["github.com/a/b"]] } ∧
      w4.locked = false := by
  obtain ⟨w1, s1, d1, l1⟩ := Profile_new_ok env w "work"
    (by
      rw [hdisk]
      intro p hp
      simp only [List.mem_singleton] at hp
      subst hp
      decide)
    hread hfree hwrite
  have hd1 : w1.disk = ⟨repos, "default", [scenarioDefault, scenarioWork []]⟩ := by
    rw [d1, hdisk]
    rfl
  obtain ⟨w2, s2, d2, l2⟩ := Profile_add_ok env w1 "work" ["github.com/a/b"]
    ["github.com/a/b"] [scenarioDefault] [] (scenarioWork [])
    (by rw [hd1]; rfl) rfl
    (by
      intro q hq
      simp only [List.mem_singleton] at hq
      subst hq
      decide)
    (.cons hnorm .nil) hread l1 hwrite
  have hd2 : w2.disk =
      ⟨repos, "default", [scenarioDefault, scenarioWork ["github.com/a/b"]]⟩ := by
    rw [d2, hd1]
    rfl
  obtain ⟨w3, s3, d3, l3⟩ := Profile_set_ok env w2 "work"
    ⟨scenarioWork ["github.com/a/b"], by rw [hd2]; simp, rfl⟩
    (by
      rw [hd2]
      show "default" ≠ "work"
      decide)
    hread l2 hwrite
  have hd3 : w3.disk =
      ⟨repos, "work", [scenarioDefault, scenarioWork ["github.com/a/b"]]⟩ := by
    rw [d3, hd2]
  obtain ⟨w4, s4, d4, l4⟩ := Profile_destroy_ok env w3 "default" []
    [scenarioWork ["github.com/a/b"]] scenarioDefault (by rw [hd3]; rfl) rfl (by simp)
    hread l3 hwrite
  have hd4 : w4.disk = ⟨repos, "work", [scenarioWork ["github.com/a/b"]]⟩ := by
    rw [d4, hd3]
    rfl
  exact ⟨w1, w2, w3, w4, s1, hd1, s2, hd2, s3, hd3, s4, hd4, l4⟩

/-- Witness of `scenario`: the demo collaborators on the scenario's initial
document. -/
theorem scenario_witness :
    demoEnv.readErr = none ∧ (∀ d, demoEnv.writeErr d = none) ∧
    demoEnv.normalize "github.com/a/b" = .ok "github.com/a/b" ∧
    ∃ w1 w2 w3 w4,
      Profile demoEnv ["new", "work"]
        { disk := { repos := (), activeProfile := "default", profiles := [scenarioDefault] }
          locked := false
          trace := []
          stdout := [] } = some (0, w1) ∧
      w1.disk = { repos := (), activeProfile := "default",
                  profiles := [scenarioDefault, scenarioWork []] } ∧
      Profile demoEnv ["add", "work", "github.com/a/b"] w1 = some (0, w2) ∧
      w2.disk = { repos := (), activeProfile := "default",
                  profiles := [scenarioDefault, scenarioWork ["github.com/a/b"]] } ∧
      Profile demoEnv ["set", "work"] w2 = some (0, w3) ∧
      w3.disk = { repos := (), activeProfile := "work",
                  profiles := [scenarioDefault, scenarioWork ["github.com/a/b"]] } ∧
      Profile demoEnv ["destroy", "default"] w3 = some (0, w4) ∧
      w4.disk = { repos := (), activeProfile := "work",
                  profiles := [scenarioWork ["github.com/a/b"]] } ∧
      w4.locked = false :=
  ⟨rfl, fun _ => rfl, rfl,
    scenario demoEnv
      { disk := { repos := (), activeProfile := "default", profiles := [scenarioDefault] }
        locked := false
        trace := []
        stdout := [] }
      () rfl rfl rfl (fun _ => rfl) rfl⟩

/-! ## C20: `Main` on every argument vector -/

theorem Profile_total (env : Env R) (args : List String) (w : World R) :
    ∃ r, Profile env args w = some r := by
  unfold Profile parseArgs
  generalize flagParse args w = parsed
  obtain ⟨fsArgs, showedUsage, w1⟩ := parsed
  cases fsArgs with
  | nil =>
    cases showedUsage
    · simp only [Bool.false_eq_true, if_false]
      have hget : profileSubCmd env "get" = some (doGet env) := rfl
      simp only [hget]
      rcases doGet env [] w1 with ⟨_ | e, w2⟩ <;> exact ⟨_, rfl⟩
    · exact ⟨_, rfl⟩
  | cons s rest =>
    dsimp only
    cases hfn : profileSubCmd env s with
    | none => exact ⟨_, rfl⟩
    | some fn =>
      cases showedUsage
      · simp only [Bool.false_eq_true, if_false, hfn]
        rcases fn rest w1 with ⟨_ | e, w2⟩ <;> exact ⟨_, rfl⟩
      · exact ⟨_, rfl⟩

/-- `Main` panics on exactly one shape of argument vector: two elements, the
second of which is `help`.  On every other vector, the empty and the
one-element vector included, all its index and slice expressions are within
bounds and it returns an exit code. -/
theorem Main_panics_iff (env : Env R) (cmds : OtherCmds R) (osArgs : List String)
    (w : World R) :
    Main env cmds osArgs w = none ↔ ∃ prog, osArgs = [prog, "help"] := by
  rcases osArgs with _ | ⟨a, _ | ⟨b, rest⟩⟩
  · simp [Main]
  · simp [Main]
  · have hslice : sliceArgs (a :: b :: rest) 2 = some rest := by simp [sliceArgs]
    have hidx : indexArgs (a :: b :: rest) 1 = some b := rfl
    have hidx2 : indexArgs (a :: b :: rest) 2 = rest.head? := by
      cases rest <;> rfl
    obtain ⟨r, hr⟩ := Profile_total env rest w
    simp only [Main, List.length_cons, hslice, hidx, hidx2]
    have hlen : ¬ (rest.length + 1 + 1 ≤ 1) := by omega
    have hlen1 : ¬ (rest.length + 1 + 1 = 1) := by omega
    simp only [hlen, hlen1, if_false]
    split_ifs with h1 h2 h3 h4 h5 h6 h7 h8
    · simp [h1]
    · simp [h2]
    · simp [h3]
    · simp [h4, hr]
    · simp [h5]
    · simp [h6]
    · simp [h7]
    · cases rest with
      | nil => simp [h8]
      | cons c cs => simp
    · simp [h8]

/-- C20, evaluation at the failing input.  On the argument vector
`[volt, help]` the first `if` is not taken (its second disjunct asks for a
length of 1, so `os.Args[1]` is never even read there), the `switch` reaches
the `help` case, and the index expression `os.Args[2]` is out of range:
`Main` panics instead of returning an exit code.  With a third element the
same case returns 2, and the one-element vector returns 1. -/
theorem Main_help_panics :
    Main demoEnv demoCmds ["volt", "help"] demoWorld = none ∧
    indexArgs ["volt", "help"] 2 = none ∧
    (Main demoEnv demoCmds ["volt", "help", "get"] demoWorld).map Prod.fst = some 2 ∧
    (Main demoEnv demoCmds ["volt"] demoWorld).map Prod.fst = some 1 := by
  decide

end Volt
